import Mathlib

/-!
Shallow embedding of the response-analytics aggregator of the
Survey-Management-Platform repository (backend survey controller,
`getAnalytics`), together with proofs and refutations of the frozen
claims about it.

JavaScript runtime values that can appear in an answer are modelled by
the inductive type `JsVal`; JS `Map` objects are modelled by
insertion-ordered association lists (`mapGet` / `mapSet`), and
`Array.prototype.sort`, which is stable for a consistent comparator, is
modelled by the stable insertion sort `sortByKey`.  JS numbers are
modelled by `Int` (every numeric value appearing in the aggregation is
integral-valued on the inputs considered here) and averages/percentages
by `ℚ`.
-/

namespace SurveyAnalytics

/-- A JavaScript value that may occur as an answer (`Schema.Types.Mixed`).
`vNull` models both `null` and `undefined` (the aggregator treats them
identically). -/
inductive JsVal where
  | vNull : JsVal
  | vBool : Bool → JsVal
  | vNum : Int → JsVal
  | vStr : String → JsVal
  | vList : List JsVal → JsVal
deriving Repr

mutual

/-- JS `String(v)` conversion, restricted to the value shapes of `JsVal`. -/
def jsToString : JsVal → String
  | .vNull => "null"
  | .vBool b => if b then "true" else "false"
  | .vNum n => toString n
  | .vStr s => s
  | .vList xs => jsListToString xs

/-- JS array-to-string join: `null`/`undefined` elements render as the
empty string, elements are joined by commas. -/
def jsListToString : List JsVal → String
  | [] => ""
  | [v] =>
    match v with
    | .vNull => ""
    | v' => jsToString v'
  | v :: w :: rest =>
    (match v with
     | .vNull => ""
     | v' => jsToString v') ++ "," ++ jsListToString (w :: rest)

end

/-- JS `String.prototype.trim`: strip leading and trailing whitespace. -/
def jsTrim (s : String) : String :=
  ((s.toList.dropWhile Char.isWhitespace).reverse.dropWhile Char.isWhitespace).reverse.asString

/-- Numeric value of a decimal digit string, if every character is a digit. -/
def digitsVal : List Char → Option Nat
  | [] => none
  | l => if l.all (fun c => c.isDigit) then
      some (l.foldl (fun acc c => acc * 10 + (c.toNat - 48)) 0)
    else none

/-- JS `Number(string)` restricted to (optionally signed) integer decimal
numerals: the string is trimmed, the empty string converts to `0`, and a
string that is not an integer numeral converts to NaN (`none`).
Non-integer numeric literals do not occur in the inputs modelled here. -/
def parseIntStr (s : String) : Option Int :=
  let t := jsTrim s
  if t = "" then some 0
  else
    match t.toList with
    | '-' :: rest => (digitsVal rest).map (fun n => -(n : Int))
    | '+' :: rest => (digitsVal rest).map (fun n => (n : Int))
    | l => (digitsVal l).map (fun n => (n : Int))

/-- JS `Number(v)` coercion; `none` models NaN.  An array converts via its
string representation, as in JS. -/
def jsToNumber : JsVal → Option Int
  | .vNull => some 0
  | .vBool b => some (if b then 1 else 0)
  | .vNum n => some n
  | .vStr s => parseIntStr s
  | .vList xs => parseIntStr (jsListToString xs)

/-- The aggregator's emptiness test (source lines 319–322): an answer
`hasValue` unless it is `null`/`undefined` or a string that trims to
empty.  Note that an empty array passes this test. -/
def hasValue : JsVal → Bool
  | .vNull => false
  | .vStr s => if jsTrim s = "" then false else true
  | _ => true

/-- JS `Map.prototype.get` on an insertion-ordered association list. -/
def mapGet {κ β : Type} [DecidableEq κ] : List (κ × β) → κ → Option β
  | [], _ => none
  | p :: m, k => if p.1 = k then some p.2 else mapGet m k

/-- JS `Map.prototype.set`: an existing key is updated in place (keeping
its position), a new key is appended. -/
def mapSet {κ β : Type} [DecidableEq κ] : List (κ × β) → κ → β → List (κ × β)
  | [], k, v => [(k, v)]
  | p :: m, k, v => if p.1 = k then (k, v) :: m else p :: mapSet m k v

/-- `map.set(k, (map.get(k) || 0) + 1)` — the tally increment used by the
aggregator. -/
def incr {κ : Type} [DecidableEq κ] (m : List (κ × Nat)) (k : κ) : List (κ × Nat) :=
  mapSet m k ((mapGet m k).getD 0 + 1)

/-- Insert into a list sorted ascending by `key`, after all strictly
smaller keys and before all equal-or-larger keys. -/
def insKey {α : Type} (key : α → Int) (a : α) : List α → List α
  | [] => [a]
  | b :: l => if key b < key a then b :: insKey key a l else a :: b :: l

/-- Stable sort ascending by `key`: the model of JS
`Array.prototype.sort` with comparator `(a, b) => key a - key b` (JS sort
is stable, and a stable sort is uniquely determined by a consistent
comparator). -/
def sortByKey {α : Type} (key : α → Int) (l : List α) : List α :=
  l.foldr (insKey key) []

/-- One option of a choice question in the survey document
(`{ text: String, value: String }`; either field may be absent). -/
structure QOption where
  value : Option String
  text : Option String
deriving Repr, DecidableEq

/-- One question of the survey document. `id` stands for
`q._id.toString()`. -/
structure Question where
  id : String
  text : String
  qtype : String
  order : Int
  options : List QOption
deriving Repr, DecidableEq

/-- The survey definition, restricted to the fields the aggregator reads. -/
structure Survey where
  questions : List Question
deriving Repr, DecidableEq

/-- One answer inside a response: `questionId` is `none` when the field is
absent (a falsy `a.questionId` is skipped), `answer` is the Mixed value. -/
structure Answer where
  questionId : Option String
  answer : JsVal
deriving Repr

/-- One response document, restricted to the fields the aggregator reads.
`timeSpent = some t` models `typeof r.timeSpent === 'number'`. -/
structure Response where
  isCompleted : Bool
  timeSpent : Option Int
  answers : List Answer
deriving Repr

/-- `const qId = a.questionId && a.questionId.toString(); if (!qId … ) return;`
— the answer is skipped when `questionId` is absent or stringifies to a
falsy (empty) string. -/
def answerQId (a : Answer) : Option String :=
  match a.questionId with
  | none => none
  | some s => if s = "" then none else some s

/-- An entry of `questionMeta`: resolved option values
(`opt.value ?? opt.text ?? ''`) together with the retained `opt.text`. -/
structure OptionMeta where
  value : String
  text : Option String
deriving Repr, DecidableEq

/-- `questionMeta[qId]` (source lines 261–274). -/
structure QMeta where
  questionId : String
  text : String
  qtype : String
  order : Int
  options : List OptionMeta
deriving Repr, DecidableEq

/-- Build one `questionMeta` entry from a question. -/
def qMetaOf (q : Question) : QMeta :=
  { questionId := q.id
    text := q.text
    qtype := q.qtype
    order := q.order
    options := q.options.map (fun o =>
      { value := (o.value <|> o.text).getD "", text := o.text }) }

/-- JS object assignment `questionMeta[qId] = …`: an existing key is
overwritten in place, a new key is appended (string-keyed insertion
order). -/
def metaSet : List QMeta → QMeta → List QMeta
  | [], m => [m]
  | x :: l, m => if x.questionId = m.questionId then m :: l else x :: metaSet l m

/-- `questionMeta` built over `survey.questions` in order. -/
def buildQuestionMeta (qs : List Question) : List QMeta :=
  qs.foldl (fun acc q => metaSet acc (qMetaOf q)) []

/-- `questionMeta[qid]` lookup. -/
def metaFind : List QMeta → String → Option QMeta
  | [], _ => none
  | m :: l, qid => if m.questionId = qid then some m else metaFind l qid

/-- `perQuestionStats[qId]` (source lines 277–290). -/
structure QStats where
  questionId : String
  questionText : String
  qtype : String
  order : Int
  reached : Nat
  totalAnswers : Nat
  textCount : Nat
  optionCounts : List (String × Nat)
  ratingCounts : List (Int × Nat)
deriving Repr, DecidableEq

/-- Fresh accumulator for one question. The source keys `ratingCounts`
by `String(num)`; since number stringification is injective the map is
modelled keyed by the number itself. -/
def initStats (m : QMeta) : QStats :=
  { questionId := m.questionId
    questionText := m.text
    qtype := m.qtype
    order := m.order
    reached := 0
    totalAnswers := 0
    textCount := 0
    optionCounts := []
    ratingCounts := [] }

/-- `Array.isArray(answer) ? answer : [answer]`. -/
def rawValues : JsVal → List JsVal
  | .vList xs => xs
  | v => [v]

/-- The body of the per-answer `forEach` after the `questionId` check and
the `seenQuestionIds.add` (source lines 314–348): skip empty values,
count the answer, and update the type-specific tally. -/
def applyAnswer (s : QStats) (answer : JsVal) : QStats :=
  if hasValue answer = false then s
  else
    let s1 := { s with totalAnswers := s.totalAnswers + 1 }
    if s1.qtype = "multiple_choice" ∨ s1.qtype = "ranking" then
      { s1 with optionCounts :=
          ((rawValues answer).map jsToString).foldl incr s1.optionCounts }
    else if s1.qtype = "rating" ∨ s1.qtype = "star_rating" then
      match jsToNumber answer with
      | some n => { s1 with ratingCounts := incr s1.ratingCounts n }
      | none => s1
    else if s1.qtype = "short_text" ∨ s1.qtype = "long_text" then
      { s1 with textCount := s1.textCount + 1 }
    else s1

/-- Mutation of `perQuestionStats[qid]`: since keys are unique the single
entry with this id is rewritten. -/
def updateAt (stats : List QStats) (qid : String) (f : QStats → QStats) : List QStats :=
  stats.map (fun s => if s.questionId = qid then f s else s)

/-- `seenQuestionIds.add(qid)` on an insertion-ordered JS `Set`. -/
def seenAdd (seen : List String) (qid : String) : List String :=
  if qid ∈ seen then seen else seen ++ [qid]

/-- One step of the per-answer `forEach` (source lines 308–348): resolve
and validate `questionId`, mark the question as seen, and update its
accumulator. -/
def answersStep (st : List QStats × List String) (a : Answer) : List QStats × List String :=
  match answerQId a with
  | none => st
  | some qid =>
    if st.1.any (fun s => decide (s.questionId = qid)) then
      (updateAt st.1 qid (fun s => applyAnswer s a.answer), seenAdd st.2 qid)
    else st

/-- Processing of one response's answers followed by the funnel update
(source lines 306–357): every question id seen in this response has its
`reached` counter incremented once. -/
def processResponse (stats : List QStats) (r : Response) : List QStats :=
  let p := r.answers.foldl answersStep (stats, [])
  p.2.foldl (fun st qid => updateAt st qid (fun s => { s with reached := s.reached + 1 })) p.1

/-- Running accumulation state of the per-response loop. -/
structure AggAcc where
  completedResponses : Nat
  partialResponses : Nat
  completionTimeSum : Int
  completionTimeCount : Nat
  stats : List QStats
deriving Repr

/-- One iteration of the main `responses.forEach` (source lines 293–357):
classify completed/partial, accumulate `timeSpent` whenever it is
numeric, then process the answers. -/
def responseStep (acc : AggAcc) (r : Response) : AggAcc :=
  let acc1 :=
    if r.isCompleted then { acc with completedResponses := acc.completedResponses + 1 }
    else { acc with partialResponses := acc.partialResponses + 1 }
  let acc2 :=
    match r.timeSpent with
    | some t => { acc1 with completionTimeSum := acc1.completionTimeSum + t,
                            completionTimeCount := acc1.completionTimeCount + 1 }
    | none => acc1
  { acc2 with stats := processResponse acc2.stats r }

/-- Initial accumulation state for a survey. -/
def initAcc (s : Survey) : AggAcc :=
  { completedResponses := 0
    partialResponses := 0
    completionTimeSum := 0
    completionTimeCount := 0
    stats := (buildQuestionMeta s.questions).map initStats }

/-- The per-question accumulators after the whole response loop. -/
def aggStats (s : Survey) (rs : List Response) : List QStats :=
  (rs.foldl responseStep (initAcc s)).stats

/-- The `totals` object of the report. -/
structure Totals where
  totalResponses : Nat
  completedResponses : Nat
  partialResponses : Nat
  averageCompletionTimeSeconds : ℚ
deriving Repr, DecidableEq

/-- One funnel entry. -/
structure FunnelEntry where
  questionId : String
  questionText : String
  order : Int
  reached : Nat
deriving Repr, DecidableEq

/-- One reported option of a choice question. -/
structure OptionOut where
  value : String
  label : String
  count : Nat
  percentage : ℚ
deriving Repr, DecidableEq

/-- One bucket of a rating distribution. -/
structure RatingOut where
  value : Int
  count : Nat
  percentage : ℚ
deriving Repr, DecidableEq

/-- The type-specific payload of a per-question report entry. -/
inductive QKind where
  | choice : List OptionOut → QKind
  | rating : List RatingOut → QKind
  | text : Nat → QKind
  | unknown : QKind
deriving Repr, DecidableEq

/-- One entry of the `questions` array of the report. -/
structure QuestionAnalytics where
  questionId : String
  questionText : String
  qtype : String
  order : Int
  totalAnswers : Nat
  kind : QKind
deriving Repr, DecidableEq

/-- The aggregation report (the fields computed by the aggregator; the
echoed survey header fields are omitted). -/
structure Report where
  totals : Totals
  funnel : List FunnelEntry
  questions : List QuestionAnalytics
deriving Repr, DecidableEq

/-- `stats.totalAnswers ? (count / stats.totalAnswers) * 100 : 0`. -/
def pct (count totalAnswers : Nat) : ℚ :=
  if totalAnswers = 0 then 0 else ((count : ℚ) / (totalAnswers : ℚ)) * 100

/-- `optionMetaByValue` (source lines 387–391): option metadata keyed by
resolved value, later entries overwriting earlier ones. -/
def optionMetaByValue (opts : List OptionMeta) : List (String × OptionMeta) :=
  opts.foldl (fun m opt => mapSet m opt.value opt) []

/-- `optMeta.text || value` with the `{ text: value }` fallback for an
observed value that matches no declared option. -/
def resolveLabel (m : List (String × OptionMeta)) (value : String) : String :=
  match mapGet m value with
  | some om =>
    match om.text with
    | some t => if t = "" then value else t
    | none => value
  | none => value

/-- The unsorted option list of a choice question, one entry per observed
value in first-seen order (source lines 393–404). -/
def rawChoiceOptions (metas : List QMeta) (s : QStats) : List OptionOut :=
  let metaOpts :=
    match metaFind metas s.questionId with
    | some m => m.options
    | none => []
  let omap := optionMetaByValue metaOpts
  s.optionCounts.map (fun p =>
    { value := p.1
      label := resolveLabel omap p.1
      count := p.2
      percentage := pct p.2 s.totalAnswers })

/-- The unsorted rating distribution (source lines 414–420). -/
def rawRatingDist (s : QStats) : List RatingOut :=
  s.ratingCounts.map (fun p =>
    { value := p.1, count := p.2, percentage := pct p.2 s.totalAnswers })

/-- One entry of the `questions` array (source lines 376–443): base
fields plus the type-dispatched payload; choice options sorted by count
descending, rating buckets by value ascending. -/
def buildQA (metas : List QMeta) (s : QStats) : QuestionAnalytics :=
  let kind :=
    if s.qtype = "multiple_choice" ∨ s.qtype = "ranking" then
      QKind.choice (sortByKey (fun o => -(o.count : Int)) (rawChoiceOptions metas s))
    else if s.qtype = "rating" ∨ s.qtype = "star_rating" then
      QKind.rating (sortByKey (fun d => d.value) (rawRatingDist s))
    else if s.qtype = "short_text" ∨ s.qtype = "long_text" then
      QKind.text s.textCount
    else QKind.unknown
  { questionId := s.questionId
    questionText := s.questionText
    qtype := s.qtype
    order := s.order
    totalAnswers := s.totalAnswers
    kind := kind }

/-- The full aggregation (`getAnalytics`, source lines 250–453) as a pure
function of the survey definition and the response collection. -/
def getAnalytics (s : Survey) (rs : List Response) : Report :=
  let metas := buildQuestionMeta s.questions
  let acc := rs.foldl responseStep (initAcc s)
  let avg : ℚ :=
    if acc.completionTimeCount > 0 then
      (acc.completionTimeSum : ℚ) / (acc.completionTimeCount : ℚ)
    else 0
  let sortedStats := sortByKey (fun st => st.order) acc.stats
  { totals :=
      { totalResponses := rs.length
        completedResponses := acc.completedResponses
        partialResponses := acc.partialResponses
        averageCompletionTimeSeconds := avg }
    funnel := sortedStats.map (fun st =>
      { questionId := st.questionId
        questionText := st.questionText
        order := st.order
        reached := st.reached })
    questions := sortedStats.map (fun st => buildQA metas st) }

/-! ### Derived definitions used to state properties of the aggregator -/

/-- Sum of the values of a tally map. -/
def mapValuesSum {κ : Type} (m : List (κ × Nat)) : Nat :=
  (m.map (fun p => p.2)).sum

/-- First occurrence of each element, in encounter order. -/
def firstSeen (l : List String) : List String :=
  l.foldl seenAdd []

/-- The question ids of a stats list, in order. -/
def statsIds (stats : List QStats) : List String :=
  stats.map (fun s => s.questionId)

/-- Lookup of the accumulator of a question id. -/
def statsFind : List QStats → String → Option QStats
  | [], _ => none
  | s :: l, qid => if s.questionId = qid then some s else statsFind l qid

/-- Forget the `reached` counter of an accumulator. -/
def eraseReached (s : QStats) : QStats :=
  { s with reached := 0 }

/-- The answers of a response that carry a valid `questionId` equal to
`qid`. -/
def qidAnswers (qid : String) (r : Response) : List Answer :=
  r.answers.filter (fun a => decide (answerQId a = some qid))

/-- Whether a response contains any answer (empty-valued or not) with a
valid `questionId` equal to `qid`. -/
def reachesQ (qid : String) (r : Response) : Bool :=
  r.answers.any (fun a => decide (answerQId a = some qid))

/-- The option-value strings contributed by one answer value: one string
per element of a list value, one for a scalar, none if the value is
empty. -/
def selStrings (v : JsVal) : List String :=
  if hasValue v then (rawValues v).map jsToString else []

/-- The option-value strings a response contributes to question `qid`,
in encounter order. -/
def selStream (qid : String) (r : Response) : List String :=
  ((qidAnswers qid r).map (fun a => selStrings a.answer)).flatten

/-- Number of selections a response contributes to question `qid`. -/
def selectionsFor (qid : String) (r : Response) : Nat :=
  (selStream qid r).length

/-- Number of non-empty answers a response carries for question `qid`. -/
def nonEmptyCountFor (qid : String) (r : Response) : Nat :=
  (qidAnswers qid r).countP (fun a => hasValue a.answer)

/-- Number of non-empty numerically-coercible answers a response carries
for question `qid`. -/
def numericCountFor (qid : String) (r : Response) : Nat :=
  (qidAnswers qid r).countP (fun a => hasValue a.answer && (jsToNumber a.answer).isSome)

/-- The effect of one response on the accumulator of question `qid`:
fold its answers for `qid` through `applyAnswer`, then bump `reached`
if the response mentions `qid` at all. -/
def responseApply (qid : String) (st : QStats) (r : Response) : QStats :=
  let st1 := (qidAnswers qid r).foldl (fun s a => applyAnswer s a.answer) st
  if reachesQ qid r then { st1 with reached := st1.reached + 1 } else st1

/-- The effect of a whole response collection on the accumulator of
question `qid`. -/
def aggFor (qid : String) (st : QStats) (rs : List Response) : QStats :=
  rs.foldl (responseApply qid) st

/-- The seen-set computation of one response, as a pure fold over its
answers given the known question ids. -/
def seenOf (ids : List String) (answers : List Answer) (seen0 : List String) : List String :=
  answers.foldl
    (fun sn a =>
      match answerQId a with
      | some q => if q ∈ ids then seenAdd sn q else sn
      | none => sn) seen0

/-- Modelled from the spec: the emptiness policy as the claims state it,
which additionally treats an empty list as empty (the source's
`hasValue` does not). -/
def specHasValue : JsVal → Bool
  | .vNull => false
  | .vStr s => if jsTrim s = "" then false else true
  | .vList xs => if xs.isEmpty then false else true
  | _ => true

/-- Modelled from the spec: the number of responses containing at least
one non-empty answer (per the claims' emptiness policy) for question
`qid` — the claims' definition of `reached`. -/
def specNonEmptyReached (qid : String) (rs : List Response) : Nat :=
  rs.countP (fun r =>
    r.answers.any (fun a => decide (answerQId a = some qid) && specHasValue a.answer))

/-- Modelled from the spec: the arithmetic mean of `timeSpent` over
exactly the completed responses carrying a numeric `timeSpent` — the
average the claims prescribe. -/
def specCompletedMean (rs : List Response) : ℚ :=
  let ts := (rs.filter (fun r => r.isCompleted)).filterMap (fun r => r.timeSpent)
  if ts.length = 0 then 0 else ((ts.sum : Int) : ℚ) / ((ts.length : Nat) : ℚ)

/-! ### Concrete inputs used in counterexamples and witness instantiations -/

/-- One completed and one partial response, both with numeric `timeSpent`. -/
def c1Rs : List Response := [⟨true, some 10, []⟩, ⟨false, some 100, []⟩]

/-- A one-question survey. -/
def c2S : Survey := ⟨[⟨"q1", "Q", "short_text", 0, []⟩]⟩

/-- A single response whose only answer is a whitespace-only string. -/
def c2Rs : List Response := [⟨true, none, [⟨some "q1", JsVal.vStr " "⟩]⟩]

/-- A survey with one multiple-choice question with options A, B, C. -/
def c3S : Survey := ⟨[⟨"m1", "M", "multiple_choice", 0,
  [⟨some "A", some "Option A"⟩, ⟨some "B", some "Option B"⟩, ⟨some "C", some "Option C"⟩]⟩]⟩

/-- A single response answering the choice question with the list [A, C]. -/
def c3Rs : List Response :=
  [⟨true, none, [⟨some "m1", JsVal.vList [JsVal.vStr "A", JsVal.vStr "C"]⟩]⟩]

/-- The report entry of `c3S` with no responses. -/
def c3WitQA : QuestionAnalytics :=
  { questionId := "m1", questionText := "M", qtype := "multiple_choice", order := 0,
    totalAnswers := 0, kind := QKind.choice [] }

/-- A survey with a text question and a choice question. -/
def c4S : Survey := ⟨[⟨"q1", "Q1", "short_text", 0, []⟩,
  ⟨"q2", "Q2", "multiple_choice", 1, [⟨some "A", some "A"⟩]⟩]⟩

/-- One response carrying a `null` answer and an empty-list answer. -/
def c4Rs : List Response :=
  [⟨true, none, [⟨some "q1", JsVal.vNull⟩, ⟨some "q2", JsVal.vList []⟩]⟩]

/-- A response shell used for the C4 witness. -/
def c4WitR : Response := ⟨true, none, []⟩

/-- A null-valued answer used for the C4 witness. -/
def c4WitA : Answer := ⟨some "q1", JsVal.vNull⟩

/-- A one-question survey. -/
def c5S : Survey := ⟨[⟨"q1", "Q", "short_text", 0, []⟩]⟩

/-- One response with one non-empty answer. -/
def c5Rs : List Response := [⟨true, none, [⟨some "q1", JsVal.vStr "hi"⟩]⟩]

/-- A one-question survey. -/
def c6S : Survey := ⟨[⟨"q1", "Q", "short_text", 0, []⟩]⟩

/-- A response shell used for the C6 witness. -/
def c6WitR : Response := ⟨true, some 5, []⟩

/-- An answer whose question id matches no survey question. -/
def c6WitA : Answer := ⟨some "zz", JsVal.vStr "stray"⟩

/-- A survey with one ranking question. -/
def c7S : Survey := ⟨[⟨"m1", "M", "ranking", 0, [⟨some "A", some "A"⟩]⟩]⟩

/-- The report entry of `c7S` with no responses. -/
def c7WitQA : QuestionAnalytics :=
  { questionId := "m1", questionText := "M", qtype := "ranking", order := 0,
    totalAnswers := 0, kind := QKind.choice [] }

/-- A one-question survey used to refute the empty-input claim. -/
def c8S : Survey := ⟨[⟨"q1", "Q", "short_text", 0, []⟩]⟩

/-- A survey used in the determinism witness. -/
def c9S : Survey := ⟨[⟨"q1", "Q", "rating", 0, []⟩]⟩

/-- Responses used in the determinism witness. -/
def c9Rs : List Response := [⟨true, some 30, [⟨some "q1", JsVal.vNum 4⟩]⟩]

/-- A survey with one rating question. -/
def c10S : Survey := ⟨[⟨"r1", "R", "rating", 0, []⟩]⟩

/-- The report entry of `c10S` with no responses. -/
def c10WitQA : QuestionAnalytics :=
  { questionId := "r1", questionText := "R", qtype := "rating", order := 0,
    totalAnswers := 0, kind := QKind.rating [] }

/-- The option tallies of a report entry, for stating counterexamples. -/
def optionCountsOf : QKind → List (String × Nat)
  | QKind.choice opts => opts.map (fun o => (o.value, o.count))
  | _ => []

/-- Sum of all tally counts of a report entry's payload. -/
def kindCountsSum : QKind → Nat
  | QKind.choice opts => (opts.map (fun o => o.count)).sum
  | QKind.rating dist => (dist.map (fun d => d.count)).sum
  | _ => 0

/-! ### Lemmas: the stable sort -/

theorem insKey_perm {α : Type} (key : α → Int) (a : α) (l : List α) :
    List.Perm (insKey key a l) (a :: l) := by
  induction l with
  | nil => exact List.Perm.refl _
  | cons b l ih =>
    simp only [insKey]
    split
    · exact (ih.cons b).trans (List.Perm.swap a b l)
    · exact List.Perm.refl _

theorem sortByKey_perm {α : Type} (key : α → Int) (l : List α) :
    List.Perm (sortByKey key l) l := by
  induction l with
  | nil => exact List.Perm.refl _
  | cons a l ih => exact (insKey_perm key a (sortByKey key l)).trans (ih.cons a)

theorem mem_sortByKey {α : Type} {key : α → Int} {l : List α} {x : α} :
    x ∈ sortByKey key l ↔ x ∈ l :=
  (sortByKey_perm key l).mem_iff

theorem mem_insKey {α : Type} {key : α → Int} {a x : α} {l : List α} :
    x ∈ insKey key a l ↔ x = a ∨ x ∈ l := by
  rw [(insKey_perm key a l).mem_iff, List.mem_cons]

theorem pairwise_insKey {α : Type} {key : α → Int} {a : α} {l : List α}
    (h : l.Pairwise (fun x y => key x ≤ key y)) :
    (insKey key a l).Pairwise (fun x y => key x ≤ key y) := by
  induction l with
  | nil => simp [insKey]
  | cons b l ih =>
    rw [List.pairwise_cons] at h
    simp only [insKey]
    split
    · refine List.Pairwise.cons ?_ (ih h.2)
      intro x hx
      rcases mem_insKey.mp hx with rfl | hx
      · omega
      · exact h.1 x hx
    · refine List.Pairwise.cons ?_ (List.Pairwise.cons h.1 h.2)
      intro x hx
      rcases List.mem_cons.mp hx with rfl | hx
      · omega
      · have := h.1 x hx
        omega

theorem sortByKey_pairwise {α : Type} (key : α → Int) (l : List α) :
    (sortByKey key l).Pairwise (fun x y => key x ≤ key y) := by
  induction l with
  | nil => simp [sortByKey]
  | cons a l ih => exact pairwise_insKey ih

theorem map_insKey {α β : Type} (key : α → Int) (key₂ : β → Int) (f : α → β)
    (hk : ∀ x, key₂ (f x) = key x) (a : α) (l : List α) :
    (insKey key a l).map f = insKey key₂ (f a) (l.map f) := by
  induction l with
  | nil => rfl
  | cons b l ih =>
    simp only [insKey, List.map, hk]
    split
    · simp [List.map, ih]
    · simp [List.map]

theorem map_sortByKey {α β : Type} (key : α → Int) (key₂ : β → Int) (f : α → β)
    (hk : ∀ x, key₂ (f x) = key x) (l : List α) :
    (sortByKey key l).map f = sortByKey key₂ (l.map f) := by
  induction l with
  | nil => rfl
  | cons a l ih =>
    show (insKey key a (sortByKey key l)).map f = insKey key₂ (f a) (sortByKey key₂ (l.map f))
    rw [map_insKey key key₂ f hk, ih]

theorem filter_insKey_pos {α : Type} {key : α → Int} {a : α} {c : Int} (l : List α)
    (ha : key a = c) :
    (insKey key a l).filter (fun x => decide (key x = c)) =
      a :: l.filter (fun x => decide (key x = c)) := by
  induction l with
  | nil => simp [insKey, ha]
  | cons b l ih =>
    simp only [insKey]
    split
    · have hb : ¬ (key b = c) := by omega
      simp [List.filter, hb, ih]
    · simp [List.filter, ha]

theorem filter_insKey_neg {α : Type} {key : α → Int} {a : α} {c : Int} (l : List α)
    (ha : ¬ (key a = c)) :
    (insKey key a l).filter (fun x => decide (key x = c)) =
      l.filter (fun x => decide (key x = c)) := by
  induction l with
  | nil => simp [insKey, ha]
  | cons b l ih =>
    simp only [insKey]
    split
    · simp only [List.filter, ih]
    · simp [List.filter, ha]

theorem sortByKey_filter_eq {α : Type} (key : α → Int) (l : List α) (c : Int) :
    (sortByKey key l).filter (fun x => decide (key x = c)) =
      l.filter (fun x => decide (key x = c)) := by
  induction l with
  | nil => rfl
  | cons a l ih =>
    show (insKey key a (sortByKey key l)).filter _ = _
    by_cases ha : key a = c
    · rw [filter_insKey_pos _ ha, ih]
      simp [List.filter, ha]
    · rw [filter_insKey_neg _ ha, ih]
      simp [List.filter, ha]

/-! ### Lemmas: tally maps -/

theorem incr_cons_eq {κ : Type} [DecidableEq κ] (p : κ × Nat) (m : List (κ × Nat)) (k : κ)
    (h : p.1 = k) : incr (p :: m) k = (k, p.2 + 1) :: m := by
  simp [incr, mapGet, mapSet, h]

theorem incr_cons_ne {κ : Type} [DecidableEq κ] (p : κ × Nat) (m : List (κ × Nat)) (k : κ)
    (h : ¬ (p.1 = k)) : incr (p :: m) k = p :: incr m k := by
  simp [incr, mapGet, mapSet, h]

theorem mapValuesSum_incr {κ : Type} [DecidableEq κ] (m : List (κ × Nat)) (k : κ) :
    mapValuesSum (incr m k) = mapValuesSum m + 1 := by
  induction m with
  | nil => simp [incr, mapGet, mapSet, mapValuesSum]
  | cons p m ih =>
    by_cases h : p.1 = k
    · simp [incr_cons_eq p m k h, mapValuesSum]
      omega
    · simp only [incr_cons_ne p m k h, mapValuesSum, List.map, List.sum_cons]
      have := ih
      simp only [mapValuesSum] at this
      omega

theorem mapValuesSum_foldl_incr {κ : Type} [DecidableEq κ] (l : List κ) (m : List (κ × Nat)) :
    mapValuesSum (l.foldl incr m) = mapValuesSum m + l.length := by
  induction l generalizing m with
  | nil => simp
  | cons k l ih =>
    simp only [List.foldl_cons, List.length_cons, ih, mapValuesSum_incr]
    omega

theorem keys_incr (m : List (String × Nat)) (k : String) :
    (incr m k).map Prod.fst = seenAdd (m.map Prod.fst) k := by
  induction m with
  | nil => simp [incr, mapGet, mapSet, seenAdd]
  | cons p m ih =>
    by_cases h : p.1 = k
    · subst h
      simp [incr_cons_eq p m p.1 rfl, seenAdd]
    · rw [incr_cons_ne p m k h]
      simp only [List.map, ih, seenAdd]
      by_cases hm : k ∈ m.map Prod.fst
      · simp [hm, Ne.symm h]
      · simp [hm, Ne.symm h]

theorem keys_foldl_incr (l : List String) (m : List (String × Nat)) :
    (l.foldl incr m).map Prod.fst = l.foldl seenAdd (m.map Prod.fst) := by
  induction l generalizing m with
  | nil => rfl
  | cons k l ih => simp only [List.foldl_cons, ih, keys_incr]

/-! ### Lemmas: accumulator lookup and update -/

theorem statsFind_updateAt_self (stats : List QStats) (qid : String) (f : QStats → QStats)
    (hf : ∀ s, (f s).questionId = s.questionId) :
    statsFind (updateAt stats qid f) qid = (statsFind stats qid).map f := by
  induction stats with
  | nil => rfl
  | cons s l ih =>
    by_cases h : s.questionId = qid
    · simp [updateAt, statsFind, h, hf]
    · simpa [updateAt, statsFind, h] using ih

theorem statsFind_updateAt_ne (stats : List QStats) (qid qid' : String) (f : QStats → QStats)
    (hf : ∀ s, (f s).questionId = s.questionId) (h : ¬ (qid' = qid)) :
    statsFind (updateAt stats qid f) qid' = statsFind stats qid' := by
  induction stats with
  | nil => rfl
  | cons s l ih =>
    show statsFind ((if s.questionId = qid then f s else s) :: updateAt l qid f) qid' = _
    by_cases hs : s.questionId = qid
    · rw [if_pos hs]
      have h1 : ¬ ((f s).questionId = qid') := by
        rw [hf s, hs]; intro hh; exact h hh.symm
      have h2 : ¬ (s.questionId = qid') := by
        rw [hs]; intro hh; exact h hh.symm
      rw [statsFind, if_neg h1, statsFind, if_neg h2]
      exact ih
    · rw [if_neg hs]
      rw [statsFind, statsFind]
      by_cases h3 : s.questionId = qid'
      · rw [if_pos h3, if_pos h3]
      · rw [if_neg h3, if_neg h3]; exact ih

theorem statsIds_updateAt (stats : List QStats) (qid : String) (f : QStats → QStats)
    (hf : ∀ s, (f s).questionId = s.questionId) :
    statsIds (updateAt stats qid f) = statsIds stats := by
  simp only [statsIds, updateAt, List.map_map]
  refine List.map_congr_left (fun s _hs => ?_)
  simp only [Function.comp]
  split
  · exact hf s
  · rfl

theorem statsFind_eq_none (stats : List QStats) (qid : String) (h : qid ∉ statsIds stats) :
    statsFind stats qid = none := by
  induction stats with
  | nil => rfl
  | cons s l ih =>
    have hcons : statsIds (s :: l) = s.questionId :: statsIds l := rfl
    rw [hcons, List.mem_cons, not_or] at h
    rw [statsFind, if_neg (fun hh => h.1 hh.symm)]
    exact ih h.2

theorem mem_statsIds_of_statsFind {stats : List QStats} {qid : String} {st : QStats}
    (h : statsFind stats qid = some st) : qid ∈ statsIds stats := by
  by_contra hmem
  rw [statsFind_eq_none stats qid hmem] at h
  exact Option.noConfusion h

theorem statsFind_mem {stats : List QStats} {qid : String} {st : QStats}
    (h : statsFind stats qid = some st) : st ∈ stats ∧ st.questionId = qid := by
  induction stats with
  | nil => exact Option.noConfusion h
  | cons s l ih =>
    by_cases hs : s.questionId = qid
    · rw [statsFind, if_pos hs] at h
      obtain rfl : s = st := Option.some_injective _ h
      exact ⟨List.mem_cons_self s l, hs⟩
    · rw [statsFind, if_neg hs] at h
      exact ⟨List.mem_cons_of_mem s (ih h).1, (ih h).2⟩

theorem statsFind_of_mem {stats : List QStats} {st : QStats}
    (hnd : (statsIds stats).Nodup) (hm : st ∈ stats) :
    statsFind stats st.questionId = some st := by
  induction stats with
  | nil => exact absurd hm (List.not_mem_nil st)
  | cons s l ih =>
    have hcons : statsIds (s :: l) = s.questionId :: statsIds l := rfl
    rw [hcons, List.nodup_cons] at hnd
    rcases List.mem_cons.mp hm with rfl | hm'
    · rw [statsFind, if_pos rfl]
    · have hne : ¬ (s.questionId = st.questionId) := by
        intro hh
        have hmem : st.questionId ∈ statsIds l := List.mem_map_of_mem _ hm'
        rw [← hh] at hmem
        exact hnd.1 hmem
      rw [statsFind, if_neg hne]
      exact ih hnd.2 hm'

theorem any_eq_mem_statsIds (stats : List QStats) (qid : String) :
    (stats.any (fun s => decide (s.questionId = qid))) = true ↔ qid ∈ statsIds stats := by
  simp [List.any_eq_true, statsIds, List.mem_map]

/-! ### Lemmas: the seen set -/

theorem mem_seenAdd {seen : List String} {q x : String} :
    x ∈ seenAdd seen q ↔ x ∈ seen ∨ x = q := by
  by_cases h : q ∈ seen
  · simp only [seenAdd, if_pos h]
    constructor
    · exact Or.inl
    · rintro (hx | rfl)
      · exact hx
      · exact h
  · simp [seenAdd, if_neg h]

theorem seenAdd_nodup {seen : List String} {q : String} (h : seen.Nodup) :
    (seenAdd seen q).Nodup := by
  by_cases hq : q ∈ seen
  · simpa [seenAdd, hq] using h
  · simp only [seenAdd, if_neg hq]
    exact List.Nodup.append h (List.nodup_singleton q) (by simpa using hq)

theorem foldl_seenAdd_nodup (l : List String) (init : List String) (h : init.Nodup) :
    (l.foldl seenAdd init).Nodup := by
  induction l generalizing init with
  | nil => exact h
  | cons q l ih => exact ih _ (seenAdd_nodup h)

theorem mem_foldl_seenAdd (l : List String) (init : List String) (x : String) :
    x ∈ l.foldl seenAdd init ↔ x ∈ init ∨ x ∈ l := by
  induction l generalizing init with
  | nil => simp
  | cons q l ih =>
    simp only [List.foldl_cons, ih, mem_seenAdd, List.mem_cons]
    tauto

/-! ### Lemmas: the per-answer update -/

theorem applyAnswer_of_hasValue_false {v : JsVal} (s : QStats) (h : hasValue v = false) :
    applyAnswer s v = s := by
  simp [applyAnswer, h]

theorem applyAnswer_questionId (s : QStats) (v : JsVal) :
    (applyAnswer s v).questionId = s.questionId := by
  unfold applyAnswer
  dsimp only
  repeat' split
  all_goals rfl

theorem applyAnswer_questionText (s : QStats) (v : JsVal) :
    (applyAnswer s v).questionText = s.questionText := by
  unfold applyAnswer
  dsimp only
  repeat' split
  all_goals rfl

theorem applyAnswer_qtype (s : QStats) (v : JsVal) :
    (applyAnswer s v).qtype = s.qtype := by
  unfold applyAnswer
  dsimp only
  repeat' split
  all_goals rfl

theorem applyAnswer_order (s : QStats) (v : JsVal) :
    (applyAnswer s v).order = s.order := by
  unfold applyAnswer
  dsimp only
  repeat' split
  all_goals rfl

theorem applyAnswer_reached (s : QStats) (v : JsVal) :
    (applyAnswer s v).reached = s.reached := by
  unfold applyAnswer
  dsimp only
  repeat' split
  all_goals rfl

theorem applyAnswer_totalAnswers (s : QStats) (v : JsVal) :
    (applyAnswer s v).totalAnswers = s.totalAnswers + (if hasValue v then 1 else 0) := by
  cases h : hasValue v
  · simp [applyAnswer_of_hasValue_false s h]
  · unfold applyAnswer
    rw [h]
    dsimp only
    repeat' split
    all_goals simp_all

theorem applyAnswer_optionCounts_choice {s : QStats} (v : JsVal)
    (h : s.qtype = "multiple_choice" ∨ s.qtype = "ranking") :
    (applyAnswer s v).optionCounts = (selStrings v).foldl incr s.optionCounts := by
  cases hv : hasValue v
  · simp [applyAnswer_of_hasValue_false s hv, selStrings, hv]
  · simp only [applyAnswer, hv, Bool.true_eq_false, if_false, if_pos h, selStrings, if_true]

theorem applyAnswer_eraseReached (s : QStats) (v : JsVal) :
    applyAnswer (eraseReached s) v = eraseReached (applyAnswer s v) := by
  unfold applyAnswer eraseReached
  dsimp only
  repeat' split
  all_goals rfl

theorem applyAnswer_ratingSum {s : QStats} (v : JsVal)
    (h : s.qtype = "rating" ∨ s.qtype = "star_rating") :
    mapValuesSum (applyAnswer s v).ratingCounts =
      mapValuesSum s.ratingCounts +
        (if (hasValue v && (jsToNumber v).isSome) then 1 else 0) := by
  cases hv : hasValue v
  · simp [applyAnswer_of_hasValue_false s hv]
  · have hnc : ¬ (s.qtype = "multiple_choice" ∨ s.qtype = "ranking") := by
      rcases h with h | h <;> rw [h] <;> decide
    unfold applyAnswer
    rw [hv]
    dsimp only
    simp only [Bool.true_eq_false, if_false]
    rw [if_neg hnc, if_pos h]
    cases hn : jsToNumber v with
    | none => simp [hn]
    | some n => simp [hn, mapValuesSum_incr]

theorem applyAnswer_rating_nonnum {s : QStats} {v : JsVal}
    (h : s.qtype = "rating" ∨ s.qtype = "star_rating")
    (hv : hasValue v = true) (hn : jsToNumber v = none) :
    applyAnswer s v = { s with totalAnswers := s.totalAnswers + 1 } := by
  have hnc : ¬ (s.qtype = "multiple_choice" ∨ s.qtype = "ranking") := by
    rcases h with h | h <;> rw [h] <;> decide
  unfold applyAnswer
  rw [hv]
  dsimp only
  simp only [Bool.true_eq_false, if_false]
  rw [if_neg hnc, if_pos h, hn]

/-! ### Lemmas: folding a response's answers through `applyAnswer` -/

theorem foldApply_reached (answers : List Answer) (st : QStats) :
    (answers.foldl (fun s a => applyAnswer s a.answer) st).reached = st.reached := by
  induction answers generalizing st with
  | nil => rfl
  | cons a answers ih => rw [List.foldl_cons, ih, applyAnswer_reached]

theorem foldApply_questionId (answers : List Answer) (st : QStats) :
    (answers.foldl (fun s a => applyAnswer s a.answer) st).questionId = st.questionId := by
  induction answers generalizing st with
  | nil => rfl
  | cons a answers ih => rw [List.foldl_cons, ih, applyAnswer_questionId]

theorem foldApply_questionText (answers : List Answer) (st : QStats) :
    (answers.foldl (fun s a => applyAnswer s a.answer) st).questionText = st.questionText := by
  induction answers generalizing st with
  | nil => rfl
  | cons a answers ih => rw [List.foldl_cons, ih, applyAnswer_questionText]

theorem foldApply_qtype (answers : List Answer) (st : QStats) :
    (answers.foldl (fun s a => applyAnswer s a.answer) st).qtype = st.qtype := by
  induction answers generalizing st with
  | nil => rfl
  | cons a answers ih => rw [List.foldl_cons, ih, applyAnswer_qtype]

theorem foldApply_order (answers : List Answer) (st : QStats) :
    (answers.foldl (fun s a => applyAnswer s a.answer) st).order = st.order := by
  induction answers generalizing st with
  | nil => rfl
  | cons a answers ih => rw [List.foldl_cons, ih, applyAnswer_order]

theorem foldApply_totalAnswers (answers : List Answer) (st : QStats) :
    (answers.foldl (fun s a => applyAnswer s a.answer) st).totalAnswers =
      st.totalAnswers + answers.countP (fun a => hasValue a.answer) := by
  induction answers generalizing st with
  | nil => simp
  | cons a answers ih =>
    rw [List.foldl_cons, ih, applyAnswer_totalAnswers, List.countP_cons]
    by_cases h : hasValue a.answer <;> simp [h] <;> omega

theorem foldApply_optionCounts {answers : List Answer} {st : QStats}
    (h : st.qtype = "multiple_choice" ∨ st.qtype = "ranking") :
    (answers.foldl (fun s a => applyAnswer s a.answer) st).optionCounts =
      ((answers.map (fun a => selStrings a.answer)).flatten).foldl incr st.optionCounts := by
  induction answers generalizing st with
  | nil => rfl
  | cons a answers ih =>
    have h' : (applyAnswer st a.answer).qtype = "multiple_choice" ∨
        (applyAnswer st a.answer).qtype = "ranking" := by
      rw [applyAnswer_qtype]; exact h
    rw [List.foldl_cons, ih h', applyAnswer_optionCounts_choice a.answer h,
      List.map_cons, List.flatten_cons, List.foldl_append]

theorem foldApply_ratingSum {answers : List Answer} {st : QStats}
    (h : st.qtype = "rating" ∨ st.qtype = "star_rating") :
    mapValuesSum (answers.foldl (fun s a => applyAnswer s a.answer) st).ratingCounts =
      mapValuesSum st.ratingCounts +
        answers.countP (fun a => hasValue a.answer && (jsToNumber a.answer).isSome) := by
  induction answers generalizing st with
  | nil => simp
  | cons a answers ih =>
    have h' : (applyAnswer st a.answer).qtype = "rating" ∨
        (applyAnswer st a.answer).qtype = "star_rating" := by
      rw [applyAnswer_qtype]; exact h
    rw [List.foldl_cons, ih h', applyAnswer_ratingSum a.answer h, List.countP_cons]
    by_cases hc : (hasValue a.answer && (jsToNumber a.answer).isSome) = true <;>
      simp [hc] <;> omega

theorem foldApply_eraseReached (answers : List Answer) (st : QStats) :
    answers.foldl (fun s a => applyAnswer s a.answer) (eraseReached st) =
      eraseReached (answers.foldl (fun s a => applyAnswer s a.answer) st) := by
  induction answers generalizing st with
  | nil => rfl
  | cons a answers ih => rw [List.foldl_cons, List.foldl_cons, applyAnswer_eraseReached, ih]

/-! ### Lemmas: the effect of one response on one question's accumulator -/

theorem responseApply_reached (qid : String) (st : QStats) (r : Response) :
    (responseApply qid st r).reached = st.reached + (if reachesQ qid r then 1 else 0) := by
  by_cases h : reachesQ qid r = true <;> simp [responseApply, h, foldApply_reached]

theorem responseApply_totalAnswers (qid : String) (st : QStats) (r : Response) :
    (responseApply qid st r).totalAnswers = st.totalAnswers + nonEmptyCountFor qid r := by
  by_cases h : reachesQ qid r = true <;>
    simp [responseApply, h, foldApply_totalAnswers, nonEmptyCountFor]

theorem responseApply_questionId (qid : String) (st : QStats) (r : Response) :
    (responseApply qid st r).questionId = st.questionId := by
  by_cases h : reachesQ qid r = true <;> simp [responseApply, h, foldApply_questionId]

theorem responseApply_questionText (qid : String) (st : QStats) (r : Response) :
    (responseApply qid st r).questionText = st.questionText := by
  by_cases h : reachesQ qid r = true <;> simp [responseApply, h, foldApply_questionText]

theorem responseApply_qtype (qid : String) (st : QStats) (r : Response) :
    (responseApply qid st r).qtype = st.qtype := by
  by_cases h : reachesQ qid r = true <;> simp [responseApply, h, foldApply_qtype]

theorem responseApply_order (qid : String) (st : QStats) (r : Response) :
    (responseApply qid st r).order = st.order := by
  by_cases h : reachesQ qid r = true <;> simp [responseApply, h, foldApply_order]

theorem responseApply_optionCounts {qid : String} {st : QStats} {r : Response}
    (h : st.qtype = "multiple_choice" ∨ st.qtype = "ranking") :
    (responseApply qid st r).optionCounts = (selStream qid r).foldl incr st.optionCounts := by
  by_cases hr : reachesQ qid r = true <;>
    simp [responseApply, hr, foldApply_optionCounts h, selStream]

theorem responseApply_ratingSum {qid : String} {st : QStats} {r : Response}
    (h : st.qtype = "rating" ∨ st.qtype = "star_rating") :
    mapValuesSum (responseApply qid st r).ratingCounts =
      mapValuesSum st.ratingCounts + numericCountFor qid r := by
  by_cases hr : reachesQ qid r = true <;>
    simp [responseApply, hr, foldApply_ratingSum h, numericCountFor]

theorem responseApply_erase_congr {qid : String} {st₁ st₂ : QStats} (r : Response)
    (h : eraseReached st₁ = eraseReached st₂) :
    eraseReached (responseApply qid st₁ r) = eraseReached (responseApply qid st₂ r) := by
  have hfold : eraseReached ((qidAnswers qid r).foldl (fun s a => applyAnswer s a.answer) st₁) =
      eraseReached ((qidAnswers qid r).foldl (fun s a => applyAnswer s a.answer) st₂) := by
    rw [← foldApply_eraseReached, ← foldApply_eraseReached, h]
  have ebump : ∀ x : QStats,
      eraseReached { x with reached := x.reached + 1 } = eraseReached x := fun x => rfl
  unfold responseApply
  dsimp only
  split
  · rw [ebump, ebump]; exact hfold
  · exact hfold

/-! ### Lemmas: the effect of a response collection on one accumulator -/

theorem aggFor_reached (qid : String) (st : QStats) (rs : List Response) :
    (aggFor qid st rs).reached = st.reached + rs.countP (reachesQ qid) := by
  induction rs generalizing st with
  | nil => simp [aggFor]
  | cons r rs ih =>
    show (aggFor qid (responseApply qid st r) rs).reached = _
    rw [ih, responseApply_reached, List.countP_cons]
    by_cases h : reachesQ qid r = true <;> simp [h] <;> omega

theorem aggFor_totalAnswers (qid : String) (st : QStats) (rs : List Response) :
    (aggFor qid st rs).totalAnswers =
      st.totalAnswers + (rs.map (nonEmptyCountFor qid)).sum := by
  induction rs generalizing st with
  | nil => simp [aggFor]
  | cons r rs ih =>
    show (aggFor qid (responseApply qid st r) rs).totalAnswers = _
    rw [ih, responseApply_totalAnswers, List.map_cons, List.sum_cons]
    omega

theorem aggFor_questionId (qid : String) (st : QStats) (rs : List Response) :
    (aggFor qid st rs).questionId = st.questionId := by
  induction rs generalizing st with
  | nil => rfl
  | cons r rs ih =>
    show (aggFor qid (responseApply qid st r) rs).questionId = _
    rw [ih, responseApply_questionId]

theorem aggFor_questionText (qid : String) (st : QStats) (rs : List Response) :
    (aggFor qid st rs).questionText = st.questionText := by
  induction rs generalizing st with
  | nil => rfl
  | cons r rs ih =>
    show (aggFor qid (responseApply qid st r) rs).questionText = _
    rw [ih, responseApply_questionText]

theorem aggFor_qtype (qid : String) (st : QStats) (rs : List Response) :
    (aggFor qid st rs).qtype = st.qtype := by
  induction rs generalizing st with
  | nil => rfl
  | cons r rs ih =>
    show (aggFor qid (responseApply qid st r) rs).qtype = _
    rw [ih, responseApply_qtype]

theorem aggFor_order (qid : String) (st : QStats) (rs : List Response) :
    (aggFor qid st rs).order = st.order := by
  induction rs generalizing st with
  | nil => rfl
  | cons r rs ih =>
    show (aggFor qid (responseApply qid st r) rs).order = _
    rw [ih, responseApply_order]

theorem aggFor_optionCounts {qid : String} {st : QStats} {rs : List Response}
    (h : st.qtype = "multiple_choice" ∨ st.qtype = "ranking") :
    (aggFor qid st rs).optionCounts =
      ((rs.map (selStream qid)).flatten).foldl incr st.optionCounts := by
  induction rs generalizing st with
  | nil => rfl
  | cons r rs ih =>
    have h' : (responseApply qid st r).qtype = "multiple_choice" ∨
        (responseApply qid st r).qtype = "ranking" := by
      rw [responseApply_qtype]; exact h
    show (aggFor qid (responseApply qid st r) rs).optionCounts = _
    rw [ih h', responseApply_optionCounts h, List.map_cons, List.flatten_cons,
      List.foldl_append]

theorem aggFor_ratingSum {qid : String} {st : QStats} {rs : List Response}
    (h : st.qtype = "rating" ∨ st.qtype = "star_rating") :
    mapValuesSum (aggFor qid st rs).ratingCounts =
      mapValuesSum st.ratingCounts + (rs.map (numericCountFor qid)).sum := by
  induction rs generalizing st with
  | nil => simp [aggFor]
  | cons r rs ih =>
    have h' : (responseApply qid st r).qtype = "rating" ∨
        (responseApply qid st r).qtype = "star_rating" := by
      rw [responseApply_qtype]; exact h
    show mapValuesSum (aggFor qid (responseApply qid st r) rs).ratingCounts = _
    rw [ih h', responseApply_ratingSum h, List.map_cons, List.sum_cons]
    omega

theorem aggFor_erase_congr {qid : String} {st₁ st₂ : QStats} (rs : List Response)
    (h : eraseReached st₁ = eraseReached st₂) :
    eraseReached (aggFor qid st₁ rs) = eraseReached (aggFor qid st₂ rs) := by
  induction rs generalizing st₁ st₂ with
  | nil => exact h
  | cons r rs ih =>
    show eraseReached (aggFor qid (responseApply qid st₁ r) rs) = _
    exact ih (responseApply_erase_congr r h)

/-! ### Lemmas: the per-answer forEach of one response -/

theorem answersFold_statsIds (answers : List Answer) (stats : List QStats) (seen0 : List String) :
    statsIds ((answers.foldl answersStep (stats, seen0)).1) = statsIds stats := by
  induction answers generalizing stats seen0 with
  | nil => rfl
  | cons a answers ih =>
    rw [List.foldl_cons]
    cases hq : answerQId a with
    | none => simpa [answersStep, hq] using ih stats seen0
    | some q =>
      by_cases hm : (stats.any (fun s => decide (s.questionId = q))) = true
      · simp only [answersStep, hq, hm, if_true]
        rw [ih]
        exact statsIds_updateAt stats q _ (fun s => applyAnswer_questionId s a.answer)
      · simp only [answersStep, hq, hm, if_false]
        exact ih stats seen0

theorem answersFold_stats (answers : List Answer) (stats : List QStats) (seen0 : List String)
    (qid : String) :
    statsFind ((answers.foldl answersStep (stats, seen0)).1) qid =
      (statsFind stats qid).map (fun st =>
        (answers.filter (fun a => decide (answerQId a = some qid))).foldl
          (fun s a => applyAnswer s a.answer) st) := by
  induction answers generalizing stats seen0 with
  | nil =>
    cases h : statsFind stats qid <;> simp [h]
  | cons a answers ih =>
    rw [List.foldl_cons]
    cases hq : answerQId a with
    | none =>
      have hstep : answersStep (stats, seen0) a = (stats, seen0) := by
        simp [answersStep, hq]
      have hfil : (a :: answers).filter (fun a => decide (answerQId a = some qid))
          = answers.filter (fun a => decide (answerQId a = some qid)) := by
        simp [List.filter_cons, hq]
      rw [hstep, hfil]
      exact ih stats seen0
    | some q =>
      by_cases hm : (stats.any (fun s => decide (s.questionId = q))) = true
      · have hstep : answersStep (stats, seen0) a =
            (updateAt stats q (fun s => applyAnswer s a.answer), seenAdd seen0 q) := by
          simp [answersStep, hq, hm]
        rw [hstep]
        by_cases hqq : q = qid
        · subst hqq
          have hfil : (a :: answers).filter (fun a => decide (answerQId a = some q))
              = a :: answers.filter (fun a => decide (answerQId a = some q)) := by
            simp [List.filter_cons, hq]
          rw [hfil, ih,
            statsFind_updateAt_self _ _ _ (fun s => applyAnswer_questionId s a.answer),
            Option.map_map]
          cases hf : statsFind stats q <;> simp [Function.comp]
        · have hfil : (a :: answers).filter (fun a => decide (answerQId a = some qid))
              = answers.filter (fun a => decide (answerQId a = some qid)) := by
            simp [List.filter_cons, hq, hqq]
          rw [hfil, ih, statsFind_updateAt_ne _ _ _ _
            (fun s => applyAnswer_questionId s a.answer) (fun hh => hqq hh.symm)]
      · have hstep : answersStep (stats, seen0) a = (stats, seen0) := by
          simp [answersStep, hq, hm]
        rw [hstep, ih]
        by_cases hqq : q = qid
        · subst hqq
          have hnone : statsFind stats q = none := by
            apply statsFind_eq_none
            intro hmem
            exact hm ((any_eq_mem_statsIds stats q).mpr hmem)
          rw [hnone]
          rfl
        · have hfil : (a :: answers).filter (fun a => decide (answerQId a = some qid))
              = answers.filter (fun a => decide (answerQId a = some qid)) := by
            simp [List.filter_cons, hq, hqq]
          rw [hfil]

theorem answersFold_seen (answers : List Answer) (stats : List QStats) (seen0 : List String) :
    (answers.foldl answersStep (stats, seen0)).2 = seenOf (statsIds stats) answers seen0 := by
  induction answers generalizing stats seen0 with
  | nil => rfl
  | cons a answers ih =>
    rw [List.foldl_cons]
    cases hq : answerQId a with
    | none =>
      simp only [answersStep, hq]
      rw [ih]
      simp [seenOf, List.foldl_cons, hq]
    | some q =>
      by_cases hm : (stats.any (fun s => decide (s.questionId = q))) = true
      · have hmem : q ∈ statsIds stats := (any_eq_mem_statsIds stats q).mp hm
        simp only [answersStep, hq, hm, if_true]
        rw [ih, statsIds_updateAt stats q _ (fun s => applyAnswer_questionId s a.answer)]
        simp [seenOf, List.foldl_cons, hq, hmem]
      · have hmem : q ∉ statsIds stats := fun hh => hm ((any_eq_mem_statsIds stats q).mpr hh)
        simp only [answersStep, hq, hm, if_false]
        rw [ih]
        simp [seenOf, List.foldl_cons, hq, hmem]

theorem seenOf_nodup (ids : List String) (answers : List Answer) (seen0 : List String)
    (h : seen0.Nodup) : (seenOf ids answers seen0).Nodup := by
  induction answers generalizing seen0 with
  | nil => exact h
  | cons a answers ih =>
    show (seenOf ids answers _).Nodup
    cases hq : answerQId a with
    | none => simpa [hq] using ih seen0 h
    | some q =>
      by_cases hm : q ∈ ids
      · simpa [hq, hm] using ih (seenAdd seen0 q) (seenAdd_nodup h)
      · simpa [hq, hm] using ih seen0 h

theorem mem_seenOf (ids : List String) (answers : List Answer) (seen0 : List String)
    (x : String) :
    x ∈ seenOf ids answers seen0 ↔
      x ∈ seen0 ∨ (x ∈ ids ∧ ∃ a ∈ answers, answerQId a = some x) := by
  induction answers generalizing seen0 with
  | nil => simp [seenOf]
  | cons a answers ih =>
    cases hq : answerQId a with
    | none =>
      have hstep : seenOf ids (a :: answers) seen0 = seenOf ids answers seen0 := by
        simp [seenOf, List.foldl_cons, hq]
      rw [hstep, ih]
      constructor
      · rintro (h | ⟨h1, a', h2, h3⟩)
        · exact Or.inl h
        · exact Or.inr ⟨h1, a', List.mem_cons_of_mem a h2, h3⟩
      · rintro (h | ⟨h1, a', h2, h3⟩)
        · exact Or.inl h
        · rcases List.mem_cons.mp h2 with rfl | h2'
          · rw [hq] at h3; exact absurd h3 (fun hh => Option.noConfusion hh)
          · exact Or.inr ⟨h1, a', h2', h3⟩
    | some q =>
      by_cases hm : q ∈ ids
      · have hstep : seenOf ids (a :: answers) seen0 = seenOf ids answers (seenAdd seen0 q) := by
          simp [seenOf, List.foldl_cons, hq, hm]
        rw [hstep, ih]
        constructor
        · rintro (h | ⟨h1, a', h2, h3⟩)
          · rcases mem_seenAdd.mp h with h' | rfl
            · exact Or.inl h'
            · exact Or.inr ⟨hm, a, List.mem_cons_self a answers, hq⟩
          · exact Or.inr ⟨h1, a', List.mem_cons_of_mem a h2, h3⟩
        · rintro (h | ⟨h1, a', h2, h3⟩)
          · exact Or.inl (mem_seenAdd.mpr (Or.inl h))
          · rcases List.mem_cons.mp h2 with rfl | h2'
            · rw [hq] at h3
              obtain rfl : q = x := Option.some_injective _ h3
              exact Or.inl (mem_seenAdd.mpr (Or.inr rfl))
            · exact Or.inr ⟨h1, a', h2', h3⟩
      · have hstep : seenOf ids (a :: answers) seen0 = seenOf ids answers seen0 := by
          simp [seenOf, List.foldl_cons, hq, hm]
        rw [hstep, ih]
        constructor
        · rintro (h | ⟨h1, a', h2, h3⟩)
          · exact Or.inl h
          · exact Or.inr ⟨h1, a', List.mem_cons_of_mem a h2, h3⟩
        · rintro (h | ⟨h1, a', h2, h3⟩)
          · exact Or.inl h
          · rcases List.mem_cons.mp h2 with rfl | h2'
            · rw [hq] at h3
              obtain rfl : q = x := Option.some_injective _ h3
              exact absurd h1 hm
            · exact Or.inr ⟨h1, a', h2', h3⟩

/-! ### Lemmas: the funnel update and the full response step -/

theorem statsIds_reachedFold (seen : List String) (stats : List QStats) :
    statsIds (seen.foldl
      (fun st qid => updateAt st qid (fun s => { s with reached := s.reached + 1 })) stats) =
      statsIds stats := by
  induction seen generalizing stats with
  | nil => rfl
  | cons q seen ih =>
    rw [List.foldl_cons, ih,
      statsIds_updateAt stats q (fun s => { s with reached := s.reached + 1 })
        (fun s => rfl)]

theorem statsFind_reachedFold (seen : List String) (stats : List QStats) (qid : String)
    (hnd : seen.Nodup) :
    statsFind (seen.foldl
      (fun st qid => updateAt st qid (fun s => { s with reached := s.reached + 1 })) stats) qid
      = (statsFind stats qid).map
          (fun s => if qid ∈ seen then { s with reached := s.reached + 1 } else s) := by
  induction seen generalizing stats with
  | nil => cases h : statsFind stats qid <;> simp [h]
  | cons q seen ih =>
    rw [List.foldl_cons]
    rw [List.nodup_cons] at hnd
    by_cases hqq : qid = q
    · subst hqq
      rw [ih _ hnd.2,
        statsFind_updateAt_self stats qid (fun s => { s with reached := s.reached + 1 })
          (fun s => rfl),
        Option.map_map]
      have hnm : qid ∉ seen := hnd.1
      cases hf : statsFind stats qid <;>
        simp [Function.comp, hnm, List.mem_cons]
    · rw [ih _ hnd.2,
        statsFind_updateAt_ne stats q qid (fun s => { s with reached := s.reached + 1 })
          (fun s => rfl) hqq]
      cases hf : statsFind stats qid <;> simp [List.mem_cons, hqq]

theorem statsFind_processResponse (stats : List QStats) (r : Response) (qid : String) :
    statsFind (processResponse stats r) qid =
      (statsFind stats qid).map (fun st => responseApply qid st r) := by
  unfold processResponse
  have hseen := answersFold_seen r.answers stats []
  have hnd : ((r.answers.foldl answersStep (stats, [])).2).Nodup := by
    rw [hseen]; exact seenOf_nodup _ _ _ List.nodup_nil
  rw [statsFind_reachedFold _ _ _ hnd, answersFold_stats, hseen, Option.map_map]
  cases hf : statsFind stats qid with
  | none => rfl
  | some st =>
    have hmem : qid ∈ statsIds stats := mem_statsIds_of_statsFind hf
    have hcond : (qid ∈ seenOf (statsIds stats) r.answers []) ↔ reachesQ qid r = true := by
      rw [mem_seenOf]
      simp only [reachesQ, List.any_eq_true, decide_eq_true_eq, List.not_mem_nil, false_or]
      constructor
      · rintro ⟨_, a, ha, hq⟩
        exact ⟨a, ha, hq⟩
      · rintro ⟨a, ha, hq⟩
        exact ⟨hmem, a, ha, hq⟩
    have hmap : ∀ (g h : QStats → QStats), g st = h st →
        Option.map g (some st) = Option.map h (some st) := by
      intro g h hgh
      simp [hgh]
    apply hmap
    by_cases hr : reachesQ qid r = true
    · rw [Function.comp_apply, if_pos (hcond.mpr hr)]
      simp [responseApply, hr, qidAnswers]
    · rw [Function.comp_apply, if_neg (fun hh => hr (hcond.mp hh))]
      simp [responseApply, hr, qidAnswers]

theorem statsIds_processResponse (stats : List QStats) (r : Response) :
    statsIds (processResponse stats r) = statsIds stats := by
  unfold processResponse
  rw [statsIds_reachedFold, answersFold_statsIds]

theorem responseStep_stats (acc : AggAcc) (r : Response) :
    (responseStep acc r).stats = processResponse acc.stats r := by
  unfold responseStep
  dsimp only
  cases hic : r.isCompleted <;> cases hts : r.timeSpent <;> rfl

theorem statsFind_respFold (rs : List Response) (acc : AggAcc) (qid : String) :
    statsFind ((rs.foldl responseStep acc).stats) qid =
      (statsFind acc.stats qid).map (fun st => aggFor qid st rs) := by
  induction rs generalizing acc with
  | nil => cases h : statsFind acc.stats qid <;> simp [h, aggFor]
  | cons r rs ih =>
    rw [List.foldl_cons, ih, responseStep_stats, statsFind_processResponse, Option.map_map]
    cases h : statsFind acc.stats qid <;> simp [Function.comp, aggFor]

theorem statsIds_respFold (rs : List Response) (acc : AggAcc) :
    statsIds ((rs.foldl responseStep acc).stats) = statsIds acc.stats := by
  induction rs generalizing acc with
  | nil => rfl
  | cons r rs ih =>
    rw [List.foldl_cons, ih, responseStep_stats, statsIds_processResponse]

/-! ### Lemmas: initialization -/

theorem statsFind_map_initStats (metas : List QMeta) (qid : String) :
    statsFind (metas.map initStats) qid = (metaFind metas qid).map initStats := by
  induction metas with
  | nil => rfl
  | cons m metas ih =>
    by_cases h : m.questionId = qid
    · simp [statsFind, metaFind, initStats, h]
    · simp [statsFind, metaFind, initStats, h, ih]

theorem metaSet_keys (l : List QMeta) (m : QMeta) :
    (metaSet l m).map (fun x => x.questionId) =
      seenAdd (l.map (fun x => x.questionId)) m.questionId := by
  induction l with
  | nil => simp [metaSet, seenAdd]
  | cons x l ih =>
    by_cases h : x.questionId = m.questionId
    · simp only [metaSet, if_pos h, List.map_cons]
      rw [seenAdd, if_pos (by rw [List.mem_cons]; exact Or.inl h.symm), h]
    · simp only [metaSet, if_neg h, List.map_cons, ih]
      by_cases hm : m.questionId ∈ l.map (fun x => x.questionId)
      · rw [seenAdd, if_pos hm, seenAdd,
          if_pos (by rw [List.mem_cons]; exact Or.inr hm)]
      · rw [seenAdd, if_neg hm, seenAdd,
          if_neg (by rw [List.mem_cons]; rintro (hh | hh); exact h hh.symm; exact hm hh)]
        rfl

theorem buildQuestionMeta_keys_aux (qs : List Question) (init : List QMeta) :
    ((qs.foldl (fun acc q => metaSet acc (qMetaOf q)) init).map (fun m => m.questionId)) =
      qs.foldl (fun ks q => seenAdd ks q.id) (init.map (fun m => m.questionId)) := by
  induction qs generalizing init with
  | nil => rfl
  | cons q qs ih =>
    rw [List.foldl_cons, List.foldl_cons, ih, metaSet_keys]
    rfl

theorem buildQuestionMeta_keys (qs : List Question) :
    ((buildQuestionMeta qs).map (fun m => m.questionId)) =
      firstSeen (qs.map (fun q => q.id)) := by
  rw [buildQuestionMeta, buildQuestionMeta_keys_aux, firstSeen, List.foldl_map]
  rfl

theorem buildQuestionMeta_keys_nodup (qs : List Question) :
    ((buildQuestionMeta qs).map (fun m => m.questionId)).Nodup := by
  rw [buildQuestionMeta_keys]
  exact foldl_seenAdd_nodup _ _ List.nodup_nil

theorem mem_buildQuestionMeta_keys (qs : List Question) (qid : String) :
    qid ∈ (buildQuestionMeta qs).map (fun m => m.questionId) ↔ ∃ q ∈ qs, q.id = qid := by
  rw [buildQuestionMeta_keys, firstSeen, mem_foldl_seenAdd]
  simp [List.mem_map]

/-! ### Lemmas: the aggregate accumulators -/

theorem initAcc_stats (s : Survey) :
    (initAcc s).stats = (buildQuestionMeta s.questions).map initStats := rfl

theorem statsIds_initAcc (s : Survey) :
    statsIds ((initAcc s).stats) = (buildQuestionMeta s.questions).map (fun m => m.questionId) := by
  rw [initAcc_stats]
  simp [statsIds, List.map_map, Function.comp, initStats]

theorem aggStats_ids (s : Survey) (rs : List Response) :
    statsIds (aggStats s rs) = (buildQuestionMeta s.questions).map (fun m => m.questionId) := by
  rw [aggStats, statsIds_respFold, statsIds_initAcc]

theorem aggStats_nodup (s : Survey) (rs : List Response) :
    (statsIds (aggStats s rs)).Nodup := by
  rw [aggStats_ids]
  exact buildQuestionMeta_keys_nodup s.questions

theorem aggStats_find (s : Survey) (rs : List Response) (qid : String) :
    statsFind (aggStats s rs) qid =
      (metaFind (buildQuestionMeta s.questions) qid).map
        (fun m => aggFor qid (initStats m) rs) := by
  rw [aggStats, statsFind_respFold, initAcc_stats, statsFind_map_initStats, Option.map_map]
  rfl

/-! ### Lemmas: the running totals -/

theorem responseStep_completed (acc : AggAcc) (r : Response) :
    (responseStep acc r).completedResponses =
      acc.completedResponses + (if r.isCompleted then 1 else 0) := by
  unfold responseStep
  dsimp only
  cases hic : r.isCompleted <;> cases hts : r.timeSpent <;> rfl

theorem responseStep_partialCount (acc : AggAcc) (r : Response) :
    (responseStep acc r).partialResponses =
      acc.partialResponses + (if r.isCompleted then 0 else 1) := by
  unfold responseStep
  dsimp only
  cases hic : r.isCompleted <;> cases hts : r.timeSpent <;> rfl

theorem responseStep_timeSum (acc : AggAcc) (r : Response) :
    (responseStep acc r).completionTimeSum =
      acc.completionTimeSum + (match r.timeSpent with | some t => t | none => 0) := by
  unfold responseStep
  dsimp only
  cases hic : r.isCompleted <;> cases hts : r.timeSpent <;> simp [hts]

theorem responseStep_timeCount (acc : AggAcc) (r : Response) :
    (responseStep acc r).completionTimeCount =
      acc.completionTimeCount + (match r.timeSpent with | some _ => 1 | none => 0) := by
  unfold responseStep
  dsimp only
  cases hic : r.isCompleted <;> cases hts : r.timeSpent <;> simp [hts]

theorem respFold_completed (rs : List Response) (acc : AggAcc) :
    (rs.foldl responseStep acc).completedResponses =
      acc.completedResponses + rs.countP (fun r => r.isCompleted) := by
  induction rs generalizing acc with
  | nil => simp
  | cons r rs ih =>
    rw [List.foldl_cons, ih, responseStep_completed, List.countP_cons]
    by_cases h : r.isCompleted <;> simp [h] <;> omega

theorem respFold_partialCount (rs : List Response) (acc : AggAcc) :
    (rs.foldl responseStep acc).partialResponses =
      acc.partialResponses + rs.countP (fun r => !r.isCompleted) := by
  induction rs generalizing acc with
  | nil => simp
  | cons r rs ih =>
    rw [List.foldl_cons, ih, responseStep_partialCount, List.countP_cons]
    by_cases h : r.isCompleted = true <;> simp [h] <;> omega

theorem respFold_timeSum (rs : List Response) (acc : AggAcc) :
    (rs.foldl responseStep acc).completionTimeSum =
      acc.completionTimeSum + (rs.filterMap (fun r => r.timeSpent)).sum := by
  induction rs generalizing acc with
  | nil => simp
  | cons r rs ih =>
    rw [List.foldl_cons, ih, responseStep_timeSum, List.filterMap_cons]
    cases hts : r.timeSpent <;> simp [hts] <;> omega

theorem respFold_timeCount (rs : List Response) (acc : AggAcc) :
    (rs.foldl responseStep acc).completionTimeCount =
      acc.completionTimeCount + (rs.filterMap (fun r => r.timeSpent)).length := by
  induction rs generalizing acc with
  | nil => simp
  | cons r rs ih =>
    rw [List.foldl_cons, ih, responseStep_timeCount, List.filterMap_cons]
    cases hts : r.timeSpent <;> simp [hts] <;> omega

theorem getAnalytics_completed (s : Survey) (rs : List Response) :
    (getAnalytics s rs).totals.completedResponses = rs.countP (fun r => r.isCompleted) := by
  show (rs.foldl responseStep (initAcc s)).completedResponses = _
  rw [respFold_completed]
  simp [initAcc]

theorem getAnalytics_partialCount (s : Survey) (rs : List Response) :
    (getAnalytics s rs).totals.partialResponses = rs.countP (fun r => !r.isCompleted) := by
  show (rs.foldl responseStep (initAcc s)).partialResponses = _
  rw [respFold_partialCount]
  simp [initAcc]

theorem getAnalytics_totalResponses (s : Survey) (rs : List Response) :
    (getAnalytics s rs).totals.totalResponses = rs.length := rfl

theorem getAnalytics_avg (s : Survey) (rs : List Response) :
    (getAnalytics s rs).totals.averageCompletionTimeSeconds =
      if (rs.filterMap (fun r => r.timeSpent)).length = 0 then 0
      else (((rs.filterMap (fun r => r.timeSpent)).sum : Int) : ℚ) /
        (((rs.filterMap (fun r => r.timeSpent)).length : Nat) : ℚ) := by
  show (if 0 < (rs.foldl responseStep (initAcc s)).completionTimeCount then
      ((rs.foldl responseStep (initAcc s)).completionTimeSum : ℚ) /
        ((rs.foldl responseStep (initAcc s)).completionTimeCount : ℚ) else 0) = _
  rw [respFold_timeSum, respFold_timeCount]
  show (if 0 < 0 + (rs.filterMap (fun r => r.timeSpent)).length then
      ((0 + (rs.filterMap (fun r => r.timeSpent)).sum : Int) : ℚ) /
        ((0 + (rs.filterMap (fun r => r.timeSpent)).length : Nat) : ℚ) else 0) = _
  by_cases hl : (rs.filterMap (fun r => r.timeSpent)).length = 0
  · simp [hl]
  · rw [if_neg hl, if_pos (by omega : 0 < 0 + (rs.filterMap (fun r => r.timeSpent)).length)]
    simp only [zero_add, Nat.zero_add]

/-! ### Lemmas: extensionality of accumulator lists -/

theorem statsExt (l₁ l₂ : List QStats) (hids : statsIds l₁ = statsIds l₂)
    (hnd : (statsIds l₁).Nodup)
    (h : ∀ qid, statsFind l₁ qid = statsFind l₂ qid) : l₁ = l₂ := by
  induction l₁ generalizing l₂ with
  | nil =>
    cases l₂ with
    | nil => rfl
    | cons s l => exact absurd hids (by simp [statsIds])
  | cons s₁ t₁ ih =>
    cases l₂ with
    | nil => exact absurd hids (by simp [statsIds])
    | cons s₂ t₂ =>
      have hidc : s₁.questionId = s₂.questionId ∧ statsIds t₁ = statsIds t₂ := by
        simpa [statsIds] using hids
      have hs : s₁ = s₂ := by
        have hh := h s₁.questionId
        rw [statsFind, if_pos rfl, statsFind, if_pos hidc.1.symm] at hh
        exact Option.some_injective _ hh
      have hnm : s₁.questionId ∉ statsIds t₁ := (List.nodup_cons.mp hnd).1
      have hndt : (statsIds t₁).Nodup := (List.nodup_cons.mp hnd).2
      have ht : ∀ qid, statsFind t₁ qid = statsFind t₂ qid := by
        intro qid
        by_cases hq : qid = s₁.questionId
        · subst hq
          rw [statsFind_eq_none t₁ _ hnm, statsFind_eq_none t₂ _ (hidc.2 ▸ hnm)]
        · have hh := h qid
          rw [statsFind, if_neg (fun hx => hq hx.symm), statsFind,
            if_neg (by rw [← hidc.1]; exact fun hx => hq hx.symm)] at hh
          exact hh
      rw [hs, ih t₂ hidc.2 hndt ht]

theorem statsExtErase (l₁ l₂ : List QStats) (hids : statsIds l₁ = statsIds l₂)
    (hnd : (statsIds l₁).Nodup)
    (h : ∀ qid, (statsFind l₁ qid).map eraseReached = (statsFind l₂ qid).map eraseReached) :
    l₁.map eraseReached = l₂.map eraseReached := by
  induction l₁ generalizing l₂ with
  | nil =>
    cases l₂ with
    | nil => rfl
    | cons s l => exact absurd hids (by simp [statsIds])
  | cons s₁ t₁ ih =>
    cases l₂ with
    | nil => exact absurd hids (by simp [statsIds])
    | cons s₂ t₂ =>
      have hidc : s₁.questionId = s₂.questionId ∧ statsIds t₁ = statsIds t₂ := by
        simpa [statsIds] using hids
      have hs : eraseReached s₁ = eraseReached s₂ := by
        have hh := h s₁.questionId
        rw [statsFind, if_pos rfl, statsFind, if_pos hidc.1.symm] at hh
        exact Option.some_injective _ hh
      have hnm : s₁.questionId ∉ statsIds t₁ := (List.nodup_cons.mp hnd).1
      have hndt : (statsIds t₁).Nodup := (List.nodup_cons.mp hnd).2
      have ht : ∀ qid, (statsFind t₁ qid).map eraseReached =
          (statsFind t₂ qid).map eraseReached := by
        intro qid
        by_cases hq : qid = s₁.questionId
        · subst hq
          rw [statsFind_eq_none t₁ _ hnm, statsFind_eq_none t₂ _ (hidc.2 ▸ hnm)]
        · have hh := h qid
          rw [statsFind, if_neg (fun hx => hq hx.symm), statsFind,
            if_neg (by rw [← hidc.1]; exact fun hx => hq hx.symm)] at hh
          exact hh
      show eraseReached s₁ :: t₁.map eraseReached = eraseReached s₂ :: t₂.map eraseReached
      rw [hs, ih t₂ hidc.2 hndt ht]

/-! ### Lemmas: report construction -/

theorem buildQA_questionId (metas : List QMeta) (st : QStats) :
    (buildQA metas st).questionId = st.questionId := rfl

theorem buildQA_totalAnswers (metas : List QMeta) (st : QStats) :
    (buildQA metas st).totalAnswers = st.totalAnswers := rfl

theorem buildQA_order (metas : List QMeta) (st : QStats) :
    (buildQA metas st).order = st.order := rfl

theorem buildQA_eraseReached (metas : List QMeta) (st : QStats) :
    buildQA metas (eraseReached st) = buildQA metas st := rfl

theorem buildQA_kind_choice {metas : List QMeta} {st : QStats} {opts : List OptionOut}
    (h : (buildQA metas st).kind = QKind.choice opts) :
    (st.qtype = "multiple_choice" ∨ st.qtype = "ranking") ∧
      opts = sortByKey (fun o => -(o.count : Int)) (rawChoiceOptions metas st) := by
  unfold buildQA at h
  dsimp only at h
  by_cases h1 : st.qtype = "multiple_choice" ∨ st.qtype = "ranking"
  · rw [if_pos h1] at h
    refine ⟨h1, ?_⟩
    cases h
    rfl
  · rw [if_neg h1] at h
    by_cases h2 : st.qtype = "rating" ∨ st.qtype = "star_rating"
    · rw [if_pos h2] at h
      exact absurd h (by simp)
    · rw [if_neg h2] at h
      by_cases h3 : st.qtype = "short_text" ∨ st.qtype = "long_text"
      · rw [if_pos h3] at h
        exact absurd h (by simp)
      · rw [if_neg h3] at h
        exact absurd h (by simp)

theorem buildQA_kind_rating {metas : List QMeta} {st : QStats} {dist : List RatingOut}
    (h : (buildQA metas st).kind = QKind.rating dist) :
    (st.qtype = "rating" ∨ st.qtype = "star_rating") ∧
      dist = sortByKey (fun d => d.value) (rawRatingDist st) := by
  unfold buildQA at h
  dsimp only at h
  by_cases h1 : st.qtype = "multiple_choice" ∨ st.qtype = "ranking"
  · rw [if_pos h1] at h
    exact absurd h (by simp)
  · rw [if_neg h1] at h
    by_cases h2 : st.qtype = "rating" ∨ st.qtype = "star_rating"
    · rw [if_pos h2] at h
      refine ⟨h2, ?_⟩
      cases h
      rfl
    · rw [if_neg h2] at h
      by_cases h3 : st.qtype = "short_text" ∨ st.qtype = "long_text"
      · rw [if_pos h3] at h
        exact absurd h (by simp)
      · rw [if_neg h3] at h
        exact absurd h (by simp)

theorem getAnalytics_funnel_eq (s : Survey) (rs : List Response) :
    (getAnalytics s rs).funnel =
      (sortByKey (fun st => st.order) (aggStats s rs)).map (fun st =>
        { questionId := st.questionId, questionText := st.questionText,
          order := st.order, reached := st.reached }) := rfl

theorem getAnalytics_questions_eq (s : Survey) (rs : List Response) :
    (getAnalytics s rs).questions =
      (sortByKey (fun st => st.order) (aggStats s rs)).map
        (fun st => buildQA (buildQuestionMeta s.questions) st) := rfl

theorem mem_funnel {s : Survey} {rs : List Response} {e : FunnelEntry}
    (h : e ∈ (getAnalytics s rs).funnel) :
    ∃ st ∈ aggStats s rs,
      e = { questionId := st.questionId, questionText := st.questionText,
            order := st.order, reached := st.reached } := by
  rw [getAnalytics_funnel_eq] at h
  obtain ⟨st, hst, rfl⟩ := List.mem_map.mp h
  exact ⟨st, mem_sortByKey.mp hst, rfl⟩

theorem mem_questions {s : Survey} {rs : List Response} {qa : QuestionAnalytics}
    (h : qa ∈ (getAnalytics s rs).questions) :
    ∃ st ∈ aggStats s rs, qa = buildQA (buildQuestionMeta s.questions) st := by
  rw [getAnalytics_questions_eq] at h
  obtain ⟨st, hst, rfl⟩ := List.mem_map.mp h
  exact ⟨st, mem_sortByKey.mp hst, rfl⟩

theorem aggStats_entry {s : Survey} {rs : List Response} {st : QStats}
    (hst : st ∈ aggStats s rs) :
    ∃ m, metaFind (buildQuestionMeta s.questions) st.questionId = some m ∧
      st = aggFor st.questionId (initStats m) rs := by
  have hfind : statsFind (aggStats s rs) st.questionId = some st :=
    statsFind_of_mem (aggStats_nodup s rs) hst
  rw [aggStats_find] at hfind
  cases hm : metaFind (buildQuestionMeta s.questions) st.questionId with
  | none => rw [hm] at hfind; exact Option.noConfusion hfind
  | some m =>
    rw [hm] at hfind
    exact ⟨m, rfl, (Option.some_injective _ hfind).symm⟩

theorem funnel_reached_char {s : Survey} {rs : List Response} {e : FunnelEntry}
    (h : e ∈ (getAnalytics s rs).funnel) :
    e.reached = rs.countP (reachesQ e.questionId) := by
  obtain ⟨st, hst, rfl⟩ := mem_funnel h
  obtain ⟨m, _hm, hst_eq⟩ := aggStats_entry hst
  show st.reached = rs.countP (reachesQ st.questionId)
  conv_lhs => rw [hst_eq]
  rw [aggFor_reached]
  have hqid : (initStats m).questionId = st.questionId := by
    rw [hst_eq, aggFor_questionId]
  simp [initStats]

/-! ### Further glue lemmas -/

theorem metaFind_mem {metas : List QMeta} {qid : String} {m : QMeta}
    (h : metaFind metas qid = some m) : qid ∈ metas.map (fun x => x.questionId) := by
  induction metas with
  | nil => exact Option.noConfusion h
  | cons x l ih =>
    by_cases hx : x.questionId = qid
    · exact List.mem_cons.mpr (Or.inl hx.symm)
    · rw [metaFind, if_neg hx] at h
      exact List.mem_cons.mpr (Or.inr (ih h))

theorem length_flatten_map {α β : Type} (f : α → List β) (l : List α) :
    ((l.map f).flatten).length = (l.map (fun x => (f x).length)).sum := by
  induction l with
  | nil => rfl
  | cons x l ih => simp [List.flatten_cons, ih]

theorem responseApply_erase_eq (qid : String) (st : QStats) (r : Response) :
    eraseReached (responseApply qid st r) =
      eraseReached ((qidAnswers qid r).foldl (fun s a => applyAnswer s a.answer) st) := by
  unfold responseApply
  dsimp only
  split
  · rfl
  · rfl

theorem aggAccExt (x y : AggAcc)
    (h1 : x.completedResponses = y.completedResponses)
    (h2 : x.partialResponses = y.partialResponses)
    (h3 : x.completionTimeSum = y.completionTimeSum)
    (h4 : x.completionTimeCount = y.completionTimeCount)
    (h5 : x.stats = y.stats) : x = y := by
  cases x; cases y
  cases h1; cases h2; cases h3; cases h4; cases h5
  rfl

theorem totalsExt (x y : Totals)
    (h1 : x.totalResponses = y.totalResponses)
    (h2 : x.completedResponses = y.completedResponses)
    (h3 : x.partialResponses = y.partialResponses)
    (h4 : x.averageCompletionTimeSeconds = y.averageCompletionTimeSeconds) : x = y := by
  cases x; cases y
  cases h1; cases h2; cases h3; cases h4
  rfl

theorem stQtype_of_entry {rs : List Response} {st : QStats} {m : QMeta}
    (hst_eq : st = aggFor st.questionId (initStats m) rs) :
    st.qtype = (initStats m).qtype := by
  conv_lhs => rw [hst_eq]
  rw [aggFor_qtype]

theorem aggStats_optionCounts_char {rs : List Response} {st : QStats} {m : QMeta}
    (hq : st.qtype = "multiple_choice" ∨ st.qtype = "ranking")
    (hst_eq : st = aggFor st.questionId (initStats m) rs) :
    st.optionCounts = ((rs.map (selStream st.questionId)).flatten).foldl incr [] := by
  have hqt : (initStats m).qtype = "multiple_choice" ∨ (initStats m).qtype = "ranking" := by
    have hqty := stQtype_of_entry hst_eq
    rwa [hqty] at hq
  conv_lhs => rw [hst_eq]
  rw [aggFor_optionCounts hqt]
  rfl

theorem aggStats_totalAnswers_char {rs : List Response} {st : QStats} {m : QMeta}
    (hst_eq : st = aggFor st.questionId (initStats m) rs) :
    st.totalAnswers = (rs.map (nonEmptyCountFor st.questionId)).sum := by
  conv_lhs => rw [hst_eq]
  rw [aggFor_totalAnswers]
  simp [initStats]

/-! ### The claims -/

/-- Claim C1, counterexample: the reported average completion time is
taken over every response with numeric `timeSpent`, completed or not.
On one completed response (timeSpent 10) and one partial response
(timeSpent 100) the code reports 55, while the mean over completed
responses alone (the claim) is 10. -/
theorem c1_counterexample :
    (getAnalytics ⟨[]⟩ c1Rs).totals.averageCompletionTimeSeconds = 55 ∧
    specCompletedMean c1Rs = 10 ∧
    (getAnalytics ⟨[]⟩ c1Rs).totals.averageCompletionTimeSeconds ≠ specCompletedMean c1Rs := by
  have h1 : (getAnalytics ⟨[]⟩ c1Rs).totals.averageCompletionTimeSeconds = 55 := by
    rw [getAnalytics_avg]
    have hfm : (c1Rs.filterMap (fun r => r.timeSpent)) = [10, 100] := rfl
    rw [hfm]
    norm_num
  have h2 : specCompletedMean c1Rs = 10 := by
    have hfm : ((c1Rs.filter (fun r => r.isCompleted)).filterMap (fun r => r.timeSpent))
        = [10] := rfl
    simp only [specCompletedMean]
    rw [hfm]
    norm_num
  refine ⟨h1, h2, ?_⟩
  rw [h1, h2]
  norm_num

/-- Claim C1, amended: `averageCompletionTimeSeconds` is the arithmetic
mean of `timeSpent` over exactly the responses that carry a numeric
`timeSpent`, regardless of `isCompleted`; it is 0 when no response
carries one. -/
theorem c1_average_over_all_numeric_timeSpent (s : Survey) (rs : List Response) :
    (getAnalytics s rs).totals.averageCompletionTimeSeconds =
      if (rs.filterMap (fun r => r.timeSpent)).length = 0 then 0
      else (((rs.filterMap (fun r => r.timeSpent)).sum : Int) : ℚ) /
        (((rs.filterMap (fun r => r.timeSpent)).length : Nat) : ℚ) :=
  getAnalytics_avg s rs

/-- Claim C2, counterexample: a response whose only answer for a question
is a whitespace-only (empty) string still increments that question's
`reached` counter, because the seen-set is updated before the emptiness
check; the claim predicts `reached = 0` because the response has no
non-empty answer for the question. -/
theorem c2_counterexample :
    (getAnalytics c2S c2Rs).funnel.map (fun e => e.reached) = [1] ∧
    specNonEmptyReached "q1" c2Rs = 0 := by
  constructor
  · decide
  · decide

/-- Claim C2, amended: a response contributes 1 to a question's `reached`
counter iff it contains at least one answer for that question with a
valid `questionId` — regardless of whether the answer value is empty;
each response counts at most once. -/
theorem c2_reached_counts_any_answer (s : Survey) (rs : List Response) (e : FunnelEntry)
    (h : e ∈ (getAnalytics s rs).funnel) :
    e.reached = (rs.filter (fun r => reachesQ e.questionId r)).length := by
  rw [funnel_reached_char h, List.countP_eq_length_filter]

/-- Witness for the amended C2 theorem at a concrete survey and response
collection. -/
theorem c2_reached_counts_any_answer_witness :
    (⟨"q1", "Q", 0, 1⟩ : FunnelEntry).reached =
      (c2Rs.filter (fun r =>
        reachesQ (⟨"q1", "Q", 0, 1⟩ : FunnelEntry).questionId r)).length :=
  c2_reached_counts_any_answer c2S c2Rs ⟨"q1", "Q", 0, 1⟩ (by decide)

/-- Claim C3, counterexample: a single response answering the choice
question with the list [A, C] yields `totalAnswers = 1` (one answer),
not 2 as the claim states, while the option counts are A ↦ 1 and C ↦ 1,
so the counts sum to 2 ≠ `totalAnswers`. -/
theorem c3_counterexample :
    (getAnalytics c3S c3Rs).questions.map
        (fun qa => (qa.totalAnswers, optionCountsOf qa.kind)) =
      [(1, [("A", 1), ("C", 1)])] ∧
    (getAnalytics c3S c3Rs).questions.map (fun qa => kindCountsSum qa.kind) = [2] := by
  constructor
  · decide
  · decide

/-- Claim C3, amended: for a choice question the sum of the reported
option counts equals the total number of selections — one per element of
a list-valued answer, one per scalar answer — while `totalAnswers`
counts non-empty answers (a list counts once); so [A, C] gives counts
summing to 2 but `totalAnswers = 1`. -/
theorem c3_option_counts_sum (s : Survey) (rs : List Response) (qa : QuestionAnalytics)
    (opts : List OptionOut) (h : qa ∈ (getAnalytics s rs).questions)
    (hk : qa.kind = QKind.choice opts) :
    (opts.map (fun o => o.count)).sum = (rs.map (selectionsFor qa.questionId)).sum ∧
    qa.totalAnswers = (rs.map (nonEmptyCountFor qa.questionId)).sum := by
  obtain ⟨st, hst, rfl⟩ := mem_questions h
  obtain ⟨m, hm, hst_eq⟩ := aggStats_entry hst
  obtain ⟨hq, hopts⟩ := buildQA_kind_choice hk
  rw [buildQA_questionId, buildQA_totalAnswers]
  constructor
  · rw [hopts]
    have hperm := (sortByKey_perm (fun o => -(o.count : Int))
      (rawChoiceOptions (buildQuestionMeta s.questions) st)).map (fun o => o.count)
    rw [hperm.sum_eq]
    have hraw : ((rawChoiceOptions (buildQuestionMeta s.questions) st).map
        (fun o => o.count)) = st.optionCounts.map (fun p => p.2) := by
      simp [rawChoiceOptions, List.map_map]
    rw [hraw]
    have hoc := aggStats_optionCounts_char hq hst_eq
    have hsum : (st.optionCounts.map (fun p => p.2)).sum = mapValuesSum st.optionCounts := rfl
    rw [hsum, hoc, mapValuesSum_foldl_incr, length_flatten_map]
    have h0 : mapValuesSum ([] : List (String × Nat)) = 0 := rfl
    rw [h0, Nat.zero_add]
    rfl
  · exact aggStats_totalAnswers_char hst_eq

/-- Witness for the amended C3 theorem at a concrete choice question. -/
theorem c3_option_counts_sum_witness :
    ((List.map (fun o => o.count) ([] : List OptionOut)).sum =
      (([] : List Response).map (selectionsFor c3WitQA.questionId)).sum) ∧
    (c3WitQA.totalAnswers =
      (([] : List Response).map (nonEmptyCountFor c3WitQA.questionId)).sum) :=
  c3_option_counts_sum c3S [] c3WitQA [] (by decide) (by decide)

/-- Claim C5: for every question in the report's funnel, `reached` never
exceeds the total number of responses supplied. -/
theorem c5_reached_le_totalResponses (s : Survey) (rs : List Response) (e : FunnelEntry)
    (h : e ∈ (getAnalytics s rs).funnel) :
    e.reached ≤ rs.length := by
  rw [funnel_reached_char h]
  exact List.countP_le_length _

/-- Witness for the C5 theorem at a concrete survey and response list. -/
theorem c5_reached_le_totalResponses_witness :
    (⟨"q1", "Q", 0, 1⟩ : FunnelEntry).reached ≤ c5Rs.length :=
  c5_reached_le_totalResponses c5S c5Rs ⟨"q1", "Q", 0, 1⟩ (by decide)

/-- Claim C9: aggregation is deterministic — identical survey and
response inputs produce identical reports.  In this embedding the
aggregator is a pure function (JS `Map`/`Set`/object iteration orders
and the stable sort are all modelled deterministically), so the report
is a function of the inputs. -/
theorem c9_deterministic (s₁ s₂ : Survey) (rs₁ rs₂ : List Response)
    (hs : s₁ = s₂) (hr : rs₁ = rs₂) :
    getAnalytics s₁ rs₁ = getAnalytics s₂ rs₂ := by
  rw [hs, hr]

/-- Witness for the C9 theorem at concrete inputs. -/
theorem c9_deterministic_witness : getAnalytics c9S c9Rs = getAnalytics c9S c9Rs :=
  c9_deterministic c9S c9S c9Rs c9Rs rfl rfl

/-- Claim C10: for a rating-type question, a non-empty answer that does
not coerce to a number increments `totalAnswers` but adds nothing to the
rating tally, so the reported distribution counts sum to at most
`totalAnswers`. -/
theorem c10_nonnumeric_rating_counts_total_only (s : Survey) (rs : List Response)
    (qa : QuestionAnalytics) (dist : List RatingOut)
    (h : qa ∈ (getAnalytics s rs).questions) (hk : qa.kind = QKind.rating dist) :
    (dist.map (fun d => d.count)).sum ≤ qa.totalAnswers ∧
    (∀ (st : QStats) (v : JsVal),
      (st.qtype = "rating" ∨ st.qtype = "star_rating") → hasValue v = true →
      jsToNumber v = none →
      applyAnswer st v = { st with totalAnswers := st.totalAnswers + 1 }) := by
  refine ⟨?_, fun st v hq hv hn => applyAnswer_rating_nonnum hq hv hn⟩
  obtain ⟨st, hst, rfl⟩ := mem_questions h
  obtain ⟨m, hm, hst_eq⟩ := aggStats_entry hst
  obtain ⟨hq, hdist⟩ := buildQA_kind_rating hk
  rw [buildQA_totalAnswers, hdist]
  have hperm := (sortByKey_perm (fun d => d.value) (rawRatingDist st)).map (fun d => d.count)
  rw [hperm.sum_eq]
  have hraw : ((rawRatingDist st).map (fun d => d.count)) =
      st.ratingCounts.map (fun p => p.2) := by
    simp [rawRatingDist, List.map_map]
  rw [hraw]
  have hqt : (initStats m).qtype = "rating" ∨ (initStats m).qtype = "star_rating" := by
    have hqty := stQtype_of_entry hst_eq
    rwa [hqty] at hq
  have hsum : mapValuesSum st.ratingCounts = (rs.map (numericCountFor st.questionId)).sum := by
    conv_lhs => rw [hst_eq]
    rw [aggFor_ratingSum hqt]
    simp [initStats, mapValuesSum]
  have hta := aggStats_totalAnswers_char hst_eq
  have hsum' : (st.ratingCounts.map (fun p => p.2)).sum = mapValuesSum st.ratingCounts := rfl
  rw [hsum', hsum, hta]
  apply List.sum_le_sum
  intro r _hr
  apply List.countP_mono_left
  intro a _ha hcond
  rw [Bool.and_eq_true] at hcond
  exact hcond.1

/-- Witness for the C10 theorem at a concrete rating question. -/
theorem c10_nonnumeric_rating_counts_total_only_witness :
    ((List.map (fun d => d.count) ([] : List RatingOut)).sum ≤ c10WitQA.totalAnswers) ∧
    (∀ (st : QStats) (v : JsVal),
      (st.qtype = "rating" ∨ st.qtype = "star_rating") → hasValue v = true →
      jsToNumber v = none →
      applyAnswer st v = { st with totalAnswers := st.totalAnswers + 1 }) :=
  c10_nonnumeric_rating_counts_total_only c10S [] c10WitQA [] (by decide) (by decide)

/-- Claim C7: for every choice question the reported option list is
sorted by count descending, and elements of equal count keep their
pre-sort order, which is the first-seen insertion order of the option
values during aggregation (the tally map appends new keys in encounter
order), so the output order is deterministic. -/
theorem c7_options_sorted_stable (s : Survey) (rs : List Response) (qa : QuestionAnalytics)
    (opts : List OptionOut) (h : qa ∈ (getAnalytics s rs).questions)
    (hk : qa.kind = QKind.choice opts) :
    opts.Pairwise (fun x y => y.count ≤ x.count) ∧
    ∃ st ∈ aggStats s rs,
      qa = buildQA (buildQuestionMeta s.questions) st ∧
      opts = sortByKey (fun o => -(o.count : Int))
        (rawChoiceOptions (buildQuestionMeta s.questions) st) ∧
      (∀ c : Nat, opts.filter (fun o => decide (o.count = c)) =
        (rawChoiceOptions (buildQuestionMeta s.questions) st).filter
          (fun o => decide (o.count = c))) ∧
      (rawChoiceOptions (buildQuestionMeta s.questions) st).map (fun o => o.value) =
        st.optionCounts.map Prod.fst ∧
      st.optionCounts.map Prod.fst =
        firstSeen ((rs.map (selStream st.questionId)).flatten) := by
  obtain ⟨st, hst, rfl⟩ := mem_questions h
  obtain ⟨m, hm, hst_eq⟩ := aggStats_entry hst
  obtain ⟨hq, hopts⟩ := buildQA_kind_choice hk
  constructor
  · rw [hopts]
    refine (sortByKey_pairwise _ _).imp ?_
    intro a b hab
    omega
  · refine ⟨st, hst, rfl, hopts, ?_, ?_, ?_⟩
    · intro c
      rw [hopts]
      have hfe := sortByKey_filter_eq (fun o : OptionOut => -(o.count : Int))
        (rawChoiceOptions (buildQuestionMeta s.questions) st) (-(c : Int))
      have hpred : ∀ (l : List OptionOut),
          l.filter (fun o => decide (o.count = c)) =
            l.filter (fun o => decide (-(o.count : Int) = -(c : Int))) := by
        intro l
        apply List.filter_congr
        intro x _
        apply decide_eq_decide.mpr
        omega
      rw [hpred, hpred, hfe]
    · simp [rawChoiceOptions, List.map_map]
    · rw [aggStats_optionCounts_char hq hst_eq, keys_foldl_incr]
      rfl

/-- Witness for the C7 theorem at a concrete ranking question. -/
theorem c7_options_sorted_stable_witness :
    (([] : List OptionOut).Pairwise (fun x y => y.count ≤ x.count)) ∧
    ∃ st ∈ aggStats c7S [],
      c7WitQA = buildQA (buildQuestionMeta c7S.questions) st ∧
      ([] : List OptionOut) = sortByKey (fun o => -(o.count : Int))
        (rawChoiceOptions (buildQuestionMeta c7S.questions) st) ∧
      (∀ c : Nat, ([] : List OptionOut).filter (fun o => decide (o.count = c)) =
        (rawChoiceOptions (buildQuestionMeta c7S.questions) st).filter
          (fun o => decide (o.count = c))) ∧
      (rawChoiceOptions (buildQuestionMeta c7S.questions) st).map (fun o => o.value) =
        st.optionCounts.map Prod.fst ∧
      st.optionCounts.map Prod.fst =
        firstSeen ((([] : List Response).map (selStream st.questionId)).flatten) :=
  c7_options_sorted_stable c7S [] c7WitQA [] (by decide) (by decide)

/-- Claim C8, counterexample: with one question and zero responses the
report's funnel is not empty — it has one zero-reached entry per
question — contradicting the claim that zero questions AND/OR zero
responses yields empty funnel and questions arrays. -/
theorem c8_counterexample :
    (getAnalytics c8S []).funnel = [⟨"q1", "Q", 0, 0⟩] ∧
    (getAnalytics c8S []).questions.length = 1 := by
  constructor
  · decide
  · decide

/-- Claim C8, amended: for a survey with zero questions AND zero
responses the aggregator returns the structurally valid zero report
(all totals zero, averageCompletionTimeSeconds 0, empty funnel and
questions arrays); percentage computation with totalAnswers = 0 is
defined as 0, never NaN.  (With zero responses but nonzero questions the
totals are zero but the funnel/questions arrays have one entry per
question; with zero questions but nonzero responses the arrays are
empty but totalResponses counts the responses.) -/
theorem c8_empty_inputs_zero_report :
    getAnalytics ⟨[]⟩ [] =
      { totals := { totalResponses := 0, completedResponses := 0, partialResponses := 0,
                    averageCompletionTimeSeconds := 0 },
        funnel := [], questions := [] } ∧
    (∀ c : Nat, pct c 0 = 0) := by
  constructor
  · rfl
  · intro c
    simp [pct]

/-- Claim C6: an answer whose `questionId` is absent or matches no
question of the survey is skipped entirely — dropping it from a response
leaves the whole report unchanged (no counter, no total, no funnel entry
differs).  The aggregator is a total function, so no exception is
raised on such malformed input. -/
theorem c6_unknown_questionId_skipped (s : Survey) (rs₁ rs₂ : List Response) (r : Response)
    (pre post : List Answer) (a : Answer)
    (ha : ∀ q ∈ s.questions, some q.id ≠ answerQId a) :
    getAnalytics s (rs₁ ++ { r with answers := pre ++ a :: post } :: rs₂) =
      getAnalytics s (rs₁ ++ { r with answers := pre ++ post } :: rs₂) := by
  set rA : Response := { r with answers := pre ++ a :: post } with hrA
  set rB : Response := { r with answers := pre ++ post } with hrB
  have hne : ∀ qid, qid ∈ (buildQuestionMeta s.questions).map (fun m => m.questionId) →
      ¬ (answerQId a = some qid) := by
    intro qid hqid hcontra
    obtain ⟨q, hq, hid⟩ := (mem_buildQuestionMeta_keys s.questions qid).mp hqid
    subst hid
    exact ha q hq hcontra.symm
  have hagg : ∀ qid st, qid ∈ (buildQuestionMeta s.questions).map (fun m => m.questionId) →
      aggFor qid st (rs₁ ++ rA :: rs₂) = aggFor qid st (rs₁ ++ rB :: rs₂) := by
    intro qid st hqid
    have hd : decide (answerQId a = some qid) = false := by
      simp [hne qid hqid]
    have hqa : qidAnswers qid rA = qidAnswers qid rB := by
      simp [qidAnswers, hrA, hrB, List.filter_append, List.filter_cons, hd]
    have hre : reachesQ qid rA = reachesQ qid rB := by
      simp [reachesQ, hrA, hrB, List.any_cons, hd]
    have hrap : ∀ st', responseApply qid st' rA = responseApply qid st' rB := by
      intro st'
      unfold responseApply
      rw [hqa, hre]
    simp [aggFor, List.foldl_append, List.foldl_cons, hrap]
  have hstats : aggStats s (rs₁ ++ rA :: rs₂) = aggStats s (rs₁ ++ rB :: rs₂) := by
    apply statsExt
    · rw [aggStats_ids, aggStats_ids]
    · exact aggStats_nodup _ _
    · intro qid
      rw [aggStats_find, aggStats_find]
      cases hm : metaFind (buildQuestionMeta s.questions) qid with
      | none => rfl
      | some m =>
        have hk := hagg qid (initStats m) (metaFind_mem hm)
        simp [hk]
  have hcntC : (rs₁ ++ rA :: rs₂).countP (fun r => r.isCompleted) =
      (rs₁ ++ rB :: rs₂).countP (fun r => r.isCompleted) := by
    simp [List.countP_append, List.countP_cons, hrA, hrB]
  have hcntP : (rs₁ ++ rA :: rs₂).countP (fun r => !r.isCompleted) =
      (rs₁ ++ rB :: rs₂).countP (fun r => !r.isCompleted) := by
    simp [List.countP_append, List.countP_cons, hrA, hrB]
  have hfm : (rs₁ ++ rA :: rs₂).filterMap (fun r => r.timeSpent) =
      (rs₁ ++ rB :: rs₂).filterMap (fun r => r.timeSpent) := by
    simp [List.filterMap_append, List.filterMap_cons, hrA, hrB]
  have hlen : (rs₁ ++ rA :: rs₂).length = (rs₁ ++ rB :: rs₂).length := by
    simp
  have hacc : (rs₁ ++ rA :: rs₂).foldl responseStep (initAcc s) =
      (rs₁ ++ rB :: rs₂).foldl responseStep (initAcc s) := by
    apply aggAccExt
    · rw [respFold_completed, respFold_completed, hcntC]
    · rw [respFold_partialCount, respFold_partialCount, hcntP]
    · rw [respFold_timeSum, respFold_timeSum, hfm]
    · rw [respFold_timeCount, respFold_timeCount, hfm]
    · exact hstats
  simp only [getAnalytics]
  rw [hacc, hlen]

/-- Witness for the C6 theorem: dropping a stray answer with unknown
question id "zz" leaves the concrete report unchanged. -/
theorem c6_unknown_questionId_skipped_witness :
    getAnalytics c6S ([] ++ { c6WitR with answers := [] ++ c6WitA :: [] } :: []) =
      getAnalytics c6S ([] ++ { c6WitR with answers := [] ++ [] } :: []) :=
  c6_unknown_questionId_skipped c6S [] [] c6WitR [] [] c6WitA (by decide)

/-- Claim C4, counterexample: a `null` answer still marks its question as
reached (funnel reached 1, claim says 0), and an empty-list answer —
empty under the claim's policy but not under the code's `hasValue` —
increments `totalAnswers` (report says 1, claim says 0). -/
theorem c4_counterexample :
    (getAnalytics c4S c4Rs).funnel.map (fun e => (e.questionId, e.reached)) =
      [("q1", 1), ("q2", 1)] ∧
    (getAnalytics c4S c4Rs).questions.map (fun qa => (qa.questionId, qa.totalAnswers)) =
      [("q1", 0), ("q2", 1)] ∧
    specHasValue (JsVal.vList []) = false ∧ hasValue (JsVal.vList []) = true := by
  refine ⟨?_, ?_, ?_, ?_⟩ <;> decide

/-- Claim C4, amended: for every answer whose value is empty under the
code's policy — null/undefined or a whitespace-only string (an empty
list is NOT empty under this policy and does increment `totalAnswers`) —
aggregation counts nothing for that question: dropping such an answer
leaves every per-question report entry (totalAnswers and every tally)
and all totals (including completed/partial classification) unchanged.
Only the funnel's `reached` counter may still register the question. -/
theorem c4_empty_answer_counts_nothing (s : Survey) (rs₁ rs₂ : List Response) (r : Response)
    (pre post : List Answer) (a : Answer) (ha : hasValue a.answer = false) :
    (getAnalytics s (rs₁ ++ { r with answers := pre ++ a :: post } :: rs₂)).questions =
      (getAnalytics s (rs₁ ++ { r with answers := pre ++ post } :: rs₂)).questions ∧
    (getAnalytics s (rs₁ ++ { r with answers := pre ++ a :: post } :: rs₂)).totals =
      (getAnalytics s (rs₁ ++ { r with answers := pre ++ post } :: rs₂)).totals := by
  set rA : Response := { r with answers := pre ++ a :: post } with hrA
  set rB : Response := { r with answers := pre ++ post } with hrB
  have hcntC : (rs₁ ++ rA :: rs₂).countP (fun r => r.isCompleted) =
      (rs₁ ++ rB :: rs₂).countP (fun r => r.isCompleted) := by
    simp [List.countP_append, List.countP_cons, hrA, hrB]
  have hcntP : (rs₁ ++ rA :: rs₂).countP (fun r => !r.isCompleted) =
      (rs₁ ++ rB :: rs₂).countP (fun r => !r.isCompleted) := by
    simp [List.countP_append, List.countP_cons, hrA, hrB]
  have hfm : (rs₁ ++ rA :: rs₂).filterMap (fun r => r.timeSpent) =
      (rs₁ ++ rB :: rs₂).filterMap (fun r => r.timeSpent) := by
    simp [List.filterMap_append, List.filterMap_cons, hrA, hrB]
  have hlen : (rs₁ ++ rA :: rs₂).length = (rs₁ ++ rB :: rs₂).length := by
    simp
  constructor
  · -- per-question analytics are unchanged
    rw [getAnalytics_questions_eq, getAnalytics_questions_eq]
    have herase : (aggStats s (rs₁ ++ rA :: rs₂)).map eraseReached =
        (aggStats s (rs₁ ++ rB :: rs₂)).map eraseReached := by
      apply statsExtErase
      · rw [aggStats_ids, aggStats_ids]
      · exact aggStats_nodup _ _
      · intro qid
        rw [aggStats_find, aggStats_find]
        cases hm : metaFind (buildQuestionMeta s.questions) qid with
        | none => rfl
        | some m =>
          have key : eraseReached (aggFor qid (initStats m) (rs₁ ++ rA :: rs₂)) =
              eraseReached (aggFor qid (initStats m) (rs₁ ++ rB :: rs₂)) := by
            have hsplitA : aggFor qid (initStats m) (rs₁ ++ rA :: rs₂) =
                aggFor qid (responseApply qid (aggFor qid (initStats m) rs₁) rA) rs₂ := by
              simp [aggFor, List.foldl_append, List.foldl_cons]
            have hsplitB : aggFor qid (initStats m) (rs₁ ++ rB :: rs₂) =
                aggFor qid (responseApply qid (aggFor qid (initStats m) rs₁) rB) rs₂ := by
              simp [aggFor, List.foldl_append, List.foldl_cons]
            rw [hsplitA, hsplitB]
            apply aggFor_erase_congr
            rw [responseApply_erase_eq, responseApply_erase_eq]
            by_cases hqa : answerQId a = some qid
            · have hd : decide (answerQId a = some qid) = true := by simp [hqa]
              have hA : qidAnswers qid rA =
                  pre.filter (fun x => decide (answerQId x = some qid)) ++
                    a :: post.filter (fun x => decide (answerQId x = some qid)) := by
                simp [qidAnswers, hrA, List.filter_append, List.filter_cons, hd]
              have hB : qidAnswers qid rB =
                  pre.filter (fun x => decide (answerQId x = some qid)) ++
                    post.filter (fun x => decide (answerQId x = some qid)) := by
                simp [qidAnswers, hrB, List.filter_append]
              rw [hA, hB, List.foldl_append, List.foldl_append, List.foldl_cons,
                applyAnswer_of_hasValue_false _ ha]
            · have hd : decide (answerQId a = some qid) = false := by simp [hqa]
              have hAB : qidAnswers qid rA = qidAnswers qid rB := by
                simp [qidAnswers, hrA, hrB, List.filter_append, List.filter_cons, hd]
              rw [hAB]
          simp [key]
    rw [map_sortByKey (fun st => st.order) (fun qa => qa.order)
        (buildQA (buildQuestionMeta s.questions)) (fun x => buildQA_order _ x),
      map_sortByKey (fun st => st.order) (fun qa => qa.order)
        (buildQA (buildQuestionMeta s.questions)) (fun x => buildQA_order _ x)]
    have hb : ∀ l : List QStats, l.map (buildQA (buildQuestionMeta s.questions)) =
        (l.map eraseReached).map (buildQA (buildQuestionMeta s.questions)) := by
      intro l
      rw [List.map_map]
      apply List.map_congr_left
      intro x _
      exact (buildQA_eraseReached _ x).symm
    rw [hb (aggStats s (rs₁ ++ rA :: rs₂)), hb (aggStats s (rs₁ ++ rB :: rs₂)), herase]
  · -- totals are unchanged
    apply totalsExt
    · rw [getAnalytics_totalResponses, getAnalytics_totalResponses]
      exact hlen
    · rw [getAnalytics_completed, getAnalytics_completed, hcntC]
    · rw [getAnalytics_partialCount, getAnalytics_partialCount, hcntP]
    · rw [getAnalytics_avg, getAnalytics_avg, hfm]

/-- Witness for the amended C4 theorem: dropping a null answer from a
concrete response changes neither the per-question analytics nor the
totals. -/
theorem c4_empty_answer_counts_nothing_witness :
    ((getAnalytics c4S ([] ++ { c4WitR with answers := [] ++ c4WitA :: [] } :: [])).questions =
      (getAnalytics c4S ([] ++ { c4WitR with answers := [] ++ [] } :: [])).questions) ∧
    ((getAnalytics c4S ([] ++ { c4WitR with answers := [] ++ c4WitA :: [] } :: [])).totals =
      (getAnalytics c4S ([] ++ { c4WitR with answers := [] ++ [] } :: [])).totals) :=
  c4_empty_answer_counts_nothing c4S [] [] c4WitR [] [] c4WitA (by decide)

end SurveyAnalytics
